import Mathlib

/-!
Verification of the remote-control and fast-reload subsystem of the
resolver daemon (src/daemon/remote.c), as a shallow embedding in Lean 4.

Each C function that a claim depends on is translated into a Lean
definition that keeps the source's name.  Machine details that are
irrelevant to the claims (socket descriptors, TLS objects, mutexes) are
replaced by explicit values or event traces; control flow and data flow
follow the C statement by statement.
-/

namespace Unbound

/-! ## Domain names and the flush-by-zone handlers

A domain name is modelled as its list of labels in root-first order, so
that a name `a` is at-or-below a name `b` exactly when the label list of
`b` is a prefix of the label list of `a`.  This is the comparison made by
`dname_subdomain_c(a, b)` in the source. -/

/-- A domain name: labels listed root-first (so `www.example.com.` is
`["com", "example", "www"]`). -/
abbrev Dname := List String

/-- Predicate `dname_subdomain_c a b`: true when `a` is equal to `b` or lies below
`b` in the DNS tree, i.e. the labels of `b` are a prefix of those of `a`. -/
def dname_subdomain_c : Dname → Dname → Bool
| _, [] => true
| [], _ :: _ => false
| x :: xs, y :: ys => x == y && dname_subdomain_c xs ys

/-- One RRset-cache entry: owner name and TTL (absolute expiry time, as
`time_t`, modelled as `Int`). Mirrors `ub_packed_rrset_key` plus its
`packed_rrset_data.ttl`. -/
structure RrsetEntry where
  dname : Dname
  ttl : Int
deriving Repr, DecidableEq

/-- One message-cache entry: query name and the three TTL fields of
`reply_info` that `zone_del_msg` touches. -/
structure MsgEntry where
  qname : Dname
  ttl : Int
  prefetch_ttl : Int
  serve_expired_ttl : Int
deriving Repr, DecidableEq

/-- One key-cache entry: owner name and TTL, mirroring `key_entry_key`
with its `key_entry_data.ttl`. -/
structure KeyEntry where
  name : Dname
  ttl : Int
deriving Repr, DecidableEq

/-- The `del_info` accumulator of remote.c: the zone name, the expiry
bound `expired`, and the three counters. (The `worker`, `len`, `labs`
fields carry no information used by the callbacks.) -/
structure DelInfo where
  name : Dname
  expired : Int
  num_rrsets : Nat
  num_msgs : Nat
  num_keys : Nat
deriving Repr, DecidableEq

/-- Function `zone_del_rrset` callback on one locked cache entry: if the owner
name is at-or-below `inf.name` and the TTL is strictly above the bound,
lower the TTL to the bound and count the entry. -/
def zone_del_rrset (inf : DelInfo) (e : RrsetEntry) : DelInfo × RrsetEntry :=
  if dname_subdomain_c e.dname inf.name then
    if e.ttl > inf.expired then
      ({ inf with num_rrsets := inf.num_rrsets + 1 }, { e with ttl := inf.expired })
    else (inf, e)
  else (inf, e)

/-- Function `zone_del_msg` callback on one locked message-cache entry: as for
rrsets, but also lowers `prefetch_ttl` and `serve_expired_ttl`. -/
def zone_del_msg (inf : DelInfo) (e : MsgEntry) : DelInfo × MsgEntry :=
  if dname_subdomain_c e.qname inf.name then
    if e.ttl > inf.expired then
      ({ inf with num_msgs := inf.num_msgs + 1 },
       { e with ttl := inf.expired, prefetch_ttl := inf.expired,
                serve_expired_ttl := inf.expired })
    else (inf, e)
  else (inf, e)

/-- Function `zone_del_kcache` callback on one locked key-cache entry. -/
def zone_del_kcache (inf : DelInfo) (e : KeyEntry) : DelInfo × KeyEntry :=
  if dname_subdomain_c e.name inf.name then
    if e.ttl > inf.expired then
      ({ inf with num_keys := inf.num_keys + 1 }, { e with ttl := inf.expired })
    else (inf, e)
  else (inf, e)

/-- Function `slabhash_traverse` with a wr(=1) callback: visit every entry,
threading the `del_info` accumulator and rewriting entries in place. -/
def slabhash_traverse {α : Type} (f : DelInfo → α → DelInfo × α)
    (inf : DelInfo) : List α → DelInfo × List α
| [] => (inf, [])
| e :: rest =>
  let (inf1, e1) := f inf e
  let (inf2, rest1) := slabhash_traverse f inf1 rest
  (inf2, e1 :: rest1)

/-- The three caches that `do_flush_zone` walks.  The key cache is
optional, mirroring the `worker->env.key_cache` null check. -/
structure Caches where
  rrset_cache : List RrsetEntry
  msg_cache : List MsgEntry
  key_cache : Option (List KeyEntry)
deriving Repr, DecidableEq

/-- Result of `do_flush_zone`: the caches after the walk and the single
reply line printed to the control client. -/
structure FlushZoneResult where
  caches : Caches
  reply : String
  num_rrsets : Nat
  num_msgs : Nat
  num_keys : Nat
deriving Repr, DecidableEq

/-- Function `do_flush_zone` after `parse_arg_name` has produced the zone name
`nm` (name parsing is an external collaborator): set the expiry bound to
`now - 3`, traverse the RRset, message and (if present) key caches with
the three callbacks, and print the count line. -/
def do_flush_zone (now : Int) (nm : Dname) (c : Caches) : FlushZoneResult :=
  let inf0 : DelInfo :=
    { name := nm, expired := now - 3, num_rrsets := 0, num_msgs := 0, num_keys := 0 }
  let (inf1, rrset1) := slabhash_traverse zone_del_rrset inf0 c.rrset_cache
  let (inf2, msg1) := slabhash_traverse zone_del_msg inf1 c.msg_cache
  let (inf3, key1) : DelInfo × Option (List KeyEntry) :=
    match c.key_cache with
    | none => (inf2, none)
    | some kc =>
      let (i, k) := slabhash_traverse zone_del_kcache inf2 kc
      (i, some k)
  let n1 := inf3.num_rrsets
  let n2 := inf3.num_msgs
  let n3 := inf3.num_keys
  { caches := { rrset_cache := rrset1, msg_cache := msg1, key_cache := key1 },
    reply := s!"ok removed {n1} rrsets, {n2} messages and {n3} key entries\n",
    num_rrsets := n1, num_msgs := n2, num_keys := n3 }

/-! ### Characterisation of the flush walk -/

/-- An rrset entry matches the flush: at-or-below the zone with TTL
strictly above the bound (the counted/lowered condition). -/
def rrMatches (bound : Int) (nm : Dname) (e : RrsetEntry) : Bool :=
  dname_subdomain_c e.dname nm && bound < e.ttl

/-- The per-entry effect of the flush walk on an rrset entry. -/
def rrLower (bound : Int) (nm : Dname) (e : RrsetEntry) : RrsetEntry :=
  if rrMatches bound nm e then { e with ttl := bound } else e

/-- A message entry matches the flush. -/
def msgMatches (bound : Int) (nm : Dname) (e : MsgEntry) : Bool :=
  dname_subdomain_c e.qname nm && bound < e.ttl

/-- The per-entry effect of the flush walk on a message entry. -/
def msgLower (bound : Int) (nm : Dname) (e : MsgEntry) : MsgEntry :=
  if msgMatches bound nm e then
    { e with ttl := bound, prefetch_ttl := bound, serve_expired_ttl := bound }
  else e

/-- A key entry matches the flush. -/
def keyMatches (bound : Int) (nm : Dname) (e : KeyEntry) : Bool :=
  dname_subdomain_c e.name nm && bound < e.ttl

/-- The per-entry effect of the flush walk on a key entry. -/
def keyLower (bound : Int) (nm : Dname) (e : KeyEntry) : KeyEntry :=
  if keyMatches bound nm e then { e with ttl := bound } else e

theorem slabhash_traverse_rrset (inf : DelInfo) (l : List RrsetEntry) :
    slabhash_traverse zone_del_rrset inf l =
      ({ inf with num_rrsets :=
          inf.num_rrsets + l.countP (rrMatches inf.expired inf.name) },
       l.map (rrLower inf.expired inf.name)) := by
  induction l generalizing inf with
  | nil => simp [slabhash_traverse]
  | cons e rest ih =>
    cases inf with
    | mk nm ex nr nmsg nk =>
      by_cases h1 : dname_subdomain_c e.dname nm
      · by_cases h2 : ex < e.ttl
        · simp [slabhash_traverse, zone_del_rrset, rrMatches, rrLower,
            h1, h2, ih, List.countP_cons]
          omega
        · simp [slabhash_traverse, zone_del_rrset, rrMatches, rrLower,
            h1, h2, ih, List.countP_cons]
      · simp [slabhash_traverse, zone_del_rrset, rrMatches, rrLower,
          h1, ih, List.countP_cons]

theorem slabhash_traverse_msg (inf : DelInfo) (l : List MsgEntry) :
    slabhash_traverse zone_del_msg inf l =
      ({ inf with num_msgs :=
          inf.num_msgs + l.countP (msgMatches inf.expired inf.name) },
       l.map (msgLower inf.expired inf.name)) := by
  induction l generalizing inf with
  | nil => simp [slabhash_traverse]
  | cons e rest ih =>
    cases inf with
    | mk nm ex nr nmsg nk =>
      by_cases h1 : dname_subdomain_c e.qname nm
      · by_cases h2 : ex < e.ttl
        · simp [slabhash_traverse, zone_del_msg, msgMatches, msgLower,
            h1, h2, ih, List.countP_cons]
          omega
        · simp [slabhash_traverse, zone_del_msg, msgMatches, msgLower,
            h1, h2, ih, List.countP_cons]
      · simp [slabhash_traverse, zone_del_msg, msgMatches, msgLower,
          h1, ih, List.countP_cons]

theorem slabhash_traverse_kcache (inf : DelInfo) (l : List KeyEntry) :
    slabhash_traverse zone_del_kcache inf l =
      ({ inf with num_keys :=
          inf.num_keys + l.countP (keyMatches inf.expired inf.name) },
       l.map (keyLower inf.expired inf.name)) := by
  induction l generalizing inf with
  | nil => simp [slabhash_traverse]
  | cons e rest ih =>
    cases inf with
    | mk nm ex nr nmsg nk =>
      by_cases h1 : dname_subdomain_c e.name nm
      · by_cases h2 : ex < e.ttl
        · simp [slabhash_traverse, zone_del_kcache, keyMatches, keyLower,
            h1, h2, ih, List.countP_cons]
          omega
        · simp [slabhash_traverse, zone_del_kcache, keyMatches, keyLower,
            h1, h2, ih, List.countP_cons]
      · simp [slabhash_traverse, zone_del_kcache, keyMatches, keyLower,
          h1, ih, List.countP_cons]

theorem do_flush_zone_eq (now : Int) (nm : Dname) (c : Caches) :
    (do_flush_zone now nm c).caches.rrset_cache
        = c.rrset_cache.map (rrLower (now - 3) nm)
    ∧ (do_flush_zone now nm c).caches.msg_cache
        = c.msg_cache.map (msgLower (now - 3) nm)
    ∧ (do_flush_zone now nm c).caches.key_cache
        = c.key_cache.map (fun kc => kc.map (keyLower (now - 3) nm))
    ∧ (do_flush_zone now nm c).num_rrsets
        = c.rrset_cache.countP (rrMatches (now - 3) nm)
    ∧ (do_flush_zone now nm c).num_msgs
        = c.msg_cache.countP (msgMatches (now - 3) nm)
    ∧ (do_flush_zone now nm c).num_keys
        = (c.key_cache.getD []).countP (keyMatches (now - 3) nm)
    ∧ (do_flush_zone now nm c).reply
        = "ok removed " ++ toString (do_flush_zone now nm c).num_rrsets
          ++ " rrsets, " ++ toString (do_flush_zone now nm c).num_msgs
          ++ " messages and " ++ toString (do_flush_zone now nm c).num_keys
          ++ " key entries\n" := by
  cases c with
  | mk rc mc kc =>
    cases kc with
    | none =>
      simp [do_flush_zone, slabhash_traverse_rrset, slabhash_traverse_msg,
        slabhash_traverse_kcache]
      rfl
    | some k =>
      simp [do_flush_zone, slabhash_traverse_rrset, slabhash_traverse_msg,
        slabhash_traverse_kcache]
      rfl

/-- C6: the command `do_flush_zone Z` sets the expiry bound to `now - 3`
and lowers to that bound the TTL of every RRset-cache, message-cache and
key-cache entry whose owner name equals `Z` or lies below it and whose
TTL is strictly above the bound (all other entries are unchanged); it
reports exactly the line `ok removed N rrsets, M messages and K key
entries\n` where `N`, `M`, `K` are the numbers of entries lowered in
each cache. -/
theorem do_flush_zone_lowers_and_reports (now : Int) (nm : Dname) (c : Caches) :
    (do_flush_zone now nm c).caches.rrset_cache
        = c.rrset_cache.map (rrLower (now - 3) nm)
    ∧ (do_flush_zone now nm c).caches.msg_cache
        = c.msg_cache.map (msgLower (now - 3) nm)
    ∧ (do_flush_zone now nm c).caches.key_cache
        = c.key_cache.map (fun kc => kc.map (keyLower (now - 3) nm))
    ∧ (do_flush_zone now nm c).num_rrsets
        = c.rrset_cache.countP (rrMatches (now - 3) nm)
    ∧ (do_flush_zone now nm c).num_msgs
        = c.msg_cache.countP (msgMatches (now - 3) nm)
    ∧ (do_flush_zone now nm c).num_keys
        = (c.key_cache.getD []).countP (keyMatches (now - 3) nm)
    ∧ (do_flush_zone now nm c).reply
        = "ok removed " ++ toString (do_flush_zone now nm c).num_rrsets
          ++ " rrsets, " ++ toString (do_flush_zone now nm c).num_msgs
          ++ " messages and " ++ toString (do_flush_zone now nm c).num_keys
          ++ " key entries\n" :=
  do_flush_zone_eq now nm c

theorem rrMatches_rrLower_false (bound : Int) (nm : Dname) (e : RrsetEntry) :
    rrMatches bound nm (rrLower bound nm e) = false := by
  by_cases h : rrMatches bound nm e
  · rw [rrLower, if_pos h]
    simp [rrMatches]
  · rw [rrLower, if_neg h]
    simpa using h

theorem msgMatches_msgLower_false (bound : Int) (nm : Dname) (e : MsgEntry) :
    msgMatches bound nm (msgLower bound nm e) = false := by
  by_cases h : msgMatches bound nm e
  · rw [msgLower, if_pos h]
    simp [msgMatches]
  · rw [msgLower, if_neg h]
    simpa using h

theorem keyMatches_keyLower_false (bound : Int) (nm : Dname) (e : KeyEntry) :
    keyMatches bound nm (keyLower bound nm e) = false := by
  by_cases h : keyMatches bound nm e
  · rw [keyLower, if_pos h]
    simp [keyMatches]
  · rw [keyLower, if_neg h]
    simpa using h

/-- C7: `flush_zone` is idempotent in its reported counts: with the time
and the caches otherwise unchanged, running the flush again on the caches
left by a first run counts and lowers nothing, and the second reply is
exactly `ok removed 0 rrsets, 0 messages and 0 key entries\n`. -/
theorem do_flush_zone_idempotent_counts (now : Int) (nm : Dname) (c : Caches) :
    (do_flush_zone now nm (do_flush_zone now nm c).caches).num_rrsets = 0
    ∧ (do_flush_zone now nm (do_flush_zone now nm c).caches).num_msgs = 0
    ∧ (do_flush_zone now nm (do_flush_zone now nm c).caches).num_keys = 0
    ∧ (do_flush_zone now nm (do_flush_zone now nm c).caches).reply
        = "ok removed 0 rrsets, 0 messages and 0 key entries\n" := by
  obtain ⟨h1, h2, h3, h4, h5, h6, h7⟩ :=
    do_flush_zone_eq now nm (do_flush_zone now nm c).caches
  obtain ⟨g1, g2, g3, g4, g5, g6, g7⟩ := do_flush_zone_eq now nm c
  have z1 : (do_flush_zone now nm (do_flush_zone now nm c).caches).num_rrsets = 0 := by
    rw [h4, g1, List.countP_map]
    simp [Function.comp, rrMatches_rrLower_false]
  have z2 : (do_flush_zone now nm (do_flush_zone now nm c).caches).num_msgs = 0 := by
    rw [h5, g2, List.countP_map]
    simp [Function.comp, msgMatches_msgLower_false]
  have z3 : (do_flush_zone now nm (do_flush_zone now nm c).caches).num_keys = 0 := by
    rw [h6, g3]
    cases c.key_cache with
    | none => simp
    | some k =>
      simp [List.countP_map, Function.comp, keyMatches_keyLower_false]
  refine ⟨z1, z2, z3, ?_⟩
  rw [h7, z1, z2, z3]
  rfl

/-! ## Line input and the request handler

The client byte stream is modelled as a `List Char`; running off the end
of the list is the orderly close of the connection (TLS zero-return, or
`recv` returning 0).  `ssl_read_line` reads one byte at a time into a
1024-byte buffer. -/

/-- The body of the `ssl_read_line` loop, with `fuel = max - len`
remaining buffer space.  Running out of fuel is the `len == max` exit of
the `while` loop: the overlong-line error (returns 0 in C, `none` here).
End of input is a close: the line so far is returned as a success.
A newline terminates the line, which is returned without the newline. -/
def ssl_read_line_go : List Char → Nat → Option (List Char × List Char)
| _, 0 => none
| [], _ + 1 => some ([], [])
| c :: rest, m + 1 =>
  if c = '\n' then some ([], rest)
  else
    match ssl_read_line_go rest m with
    | none => none
    | some (line, r) => some (c :: line, r)

/-- Embedding of `ssl_read_line` with the 1024-byte buffer that `handle_req` passes:
returns the line (without terminator) and the unread remainder of the
stream, or `none` for the control-line-too-long error. -/
def ssl_read_line (input : List Char) : Option (List Char × List Char) :=
  ssl_read_line_go input 1024

/-- Modelled from the spec: `UNBOUND_CONTROL_VERSION` lives in a header
outside this repository slice; the spec's magic example `UBCT1 ` fixes
the control protocol version at 1. -/
def UNBOUND_CONTROL_VERSION : Nat := 1

/-- What `handle_req` did with a connection. -/
inductive HandleReqResult where
| dropBadMagic        -- fewer than six magic bytes, or not starting `UBCT`: silent return
| lineError           -- `ssl_read_line` failed (overlong line): silent return
| versionMismatch     -- magic had the `UBCT` start but was not `UBCT1 `: error reply
| dispatch (cmd : String)  -- `execute_cmd` invoked with the command line
deriving DecidableEq, Repr

/-- The reply bytes that `handle_req` itself writes to the client before
or instead of running a handler. -/
def handle_req_writes : HandleReqResult → List String
| .versionMismatch => ["error version mismatch\n"]
| _ => []

/-- Function `handle_req`: read up to six magic bytes; unless exactly six were
read and they start with `UBCT`, drop silently.  Then read the command
line; compare the magic against `UBCT<version> ` and answer
`error version mismatch` on difference; otherwise dispatch the line. -/
def handle_req (input : List Char) : HandleReqResult :=
  if min 6 input.length ≠ 6 ∨ (input.take 6).take 4 ≠ "UBCT".toList then
    .dropBadMagic
  else
    match ssl_read_line (input.drop 6) with
    | none => .lineError
    | some (line, _) =>
      if input.take 6 ≠ ("UBCT" ++ toString UNBOUND_CONTROL_VERSION ++ " ").toList then
        .versionMismatch
      else
        .dispatch (String.mk line)

theorem ssl_read_line_go_closed (input : List Char) :
    ∀ fuel, input.length < fuel → '\n' ∉ input →
      ssl_read_line_go input fuel = some (input, []) := by
  induction input with
  | nil =>
    intro fuel hf _
    cases fuel with
    | zero => omega
    | succ m => rfl
  | cons c rest ih =>
    intro fuel hf hn
    cases fuel with
    | zero => simp at hf
    | succ m =>
      have hc : ¬(c = '\n') := by
        intro h
        exact hn (h ▸ List.mem_cons_self c rest)
      have hr : ssl_read_line_go rest m = some (rest, []) := by
        apply ih
        · simpa using hf
        · intro h
          exact hn (List.mem_cons_of_mem _ h)
      simp only [ssl_read_line_go, if_neg hc, hr]

theorem ssl_read_line_go_none_iff (input : List Char) :
    ∀ fuel, (ssl_read_line_go input fuel = none ↔
      fuel ≤ input.length ∧ '\n' ∉ input.take fuel) := by
  induction input with
  | nil =>
    intro fuel
    cases fuel with
    | zero => simp [ssl_read_line_go]
    | succ m => simp [ssl_read_line_go]
  | cons c rest ih =>
    intro fuel
    cases fuel with
    | zero => simp [ssl_read_line_go]
    | succ m =>
      by_cases hc : c = '\n'
      · simp [ssl_read_line_go, hc, List.take_succ_cons]
      · rcases h : ssl_read_line_go rest m with _ | ⟨line, rr⟩
        · have hb := (ih m).mp h
          simp only [ssl_read_line_go, if_neg hc, h, List.take_succ_cons,
            List.length_cons, List.mem_cons]
          constructor
          · intro _
            refine ⟨by omega, ?_⟩
            rintro (h1 | h2)
            · exact hc h1.symm
            · exact hb.2 h2
          · intro _
            trivial
        · have hnb : ¬(m ≤ rest.length ∧ '\n' ∉ rest.take m) := by
            intro hx
            have := (ih m).mpr hx
            rw [h] at this
            exact Option.noConfusion this
          simp only [ssl_read_line_go, if_neg hc, h, List.take_succ_cons,
            List.length_cons, List.mem_cons]
          constructor
          · intro hx
            exact Option.noConfusion hx
          · rintro ⟨hl, hm⟩
            exfalso
            apply hnb
            refine ⟨by omega, fun hmm => hm (Or.inr hmm)⟩

/-- C10: an orderly close of the peer stream before a newline is a
successful line terminator.  (1) `ssl_read_line` on a closed stream holding fewer than
1024 bytes and no LF returns success with those bytes as the line;
(2) therefore a full request whose command line lacks the trailing LF is
still dispatched: `handle_req` on magic `UBCT1 ` followed by such a line
and connection close dispatches exactly that line; (3) the only read
error is a line that reaches the 1024-byte buffer limit without a
newline: `ssl_read_line` fails exactly when the stream holds at least
1024 bytes and none of the first 1024 is an LF. -/
theorem ssl_read_line_close_is_terminator :
    (∀ line : List Char, line.length < 1024 → '\n' ∉ line →
      ssl_read_line line = some (line, []))
    ∧ (∀ line : List Char, line.length < 1024 → '\n' ∉ line →
        handle_req (("UBCT" ++ toString UNBOUND_CONTROL_VERSION ++ " ").toList
          ++ line) = .dispatch (String.mk line))
    ∧ (∀ input : List Char, ssl_read_line input = none ↔
        1024 ≤ input.length ∧ '\n' ∉ input.take 1024) := by
  refine ⟨?_, ?_, ?_⟩
  · intro line h1 h2
    exact ssl_read_line_go_closed line 1024 h1 h2
  · intro line h1 h2
    have hV : ("UBCT" ++ toString UNBOUND_CONTROL_VERSION ++ " ") = "UBCT1 " := by
      decide
    rw [hV]
    have hVlen : ("UBCT1 ".toList).length = 6 := by
      decide
    have hms : ("UBCT1 ".toList ++ line).take 6 = "UBCT1 ".toList :=
      List.take_left' hVlen
    have hdrop : ("UBCT1 ".toList ++ line).drop 6 = line :=
      List.drop_left' hVlen
    have hmin : min 6 ("UBCT1 ".toList ++ line).length = 6 := by
      rw [List.length_append, hVlen]
      omega
    have hread : ssl_read_line line = some (line, []) :=
      ssl_read_line_go_closed line 1024 h1 h2
    have hcond : ¬(min 6 ("UBCT1 ".toList ++ line).length ≠ 6
        ∨ (("UBCT1 ".toList ++ line).take 6).take 4 ≠ "UBCT".toList) := by
      push_neg
      refine ⟨hmin, ?_⟩
      rw [hms]
      decide
    rw [handle_req, if_neg hcond, hdrop, hread]
    have hne : ¬(("UBCT1 ".toList ++ line).take 6
        ≠ ("UBCT" ++ toString UNBOUND_CONTROL_VERSION ++ " ").toList) := by
      intro hx
      exact hx (by rw [hms, hV])
    show (if ("UBCT1 ".toList ++ line).take 6
        ≠ ("UBCT" ++ toString UNBOUND_CONTROL_VERSION ++ " ").toList then
        HandleReqResult.versionMismatch
      else HandleReqResult.dispatch (String.mk line))
      = HandleReqResult.dispatch (String.mk line)
    rw [if_neg hne]
  · intro input
    exact ssl_read_line_go_none_iff input 1024

/-- Witness for `ssl_read_line_close_is_terminator` at the concrete
stream `UBCT1 status` closed without a newline: the command is still
dispatched. -/
theorem ssl_read_line_close_is_terminator_witness :
    handle_req ("UBCT1 status".toList) = .dispatch "status" := by
  have h := ssl_read_line_close_is_terminator.2.1 "status".toList
    (by decide) (by decide)
  simpa using h

/-- C5 counterexample: the claim says any mismatch of the six-byte magic
is dropped silently with no reply bytes.  But the six-byte magic
`UBCT! ` — which does not match the required `UBCT` + decimal version +
space shape — is answered with `error version mismatch\n`: the silent
drop only covers magics that fail the four-byte `UBCT` prefix test (or
short reads). -/
theorem handle_req_bad_version_writes_reply :
    handle_req ("UBCT! status\n".toList) = .versionMismatch
    ∧ handle_req_writes (handle_req ("UBCT! status\n".toList))
        = ["error version mismatch\n"]
    ∧ handle_req_writes (handle_req ("UBCT! status\n".toList)) ≠ [] := by
  refine ⟨by decide, by decide, by decide⟩

/-- C5 (amended): the server reads at most six magic bytes; it silently
drops the connection, writing nothing, exactly when fewer than six bytes
were read or the first four are not `UBCT`; in particular `HELO01\n` is
closed with no bytes written.  If six bytes start with `UBCT` but the
magic is not the full `UBCT1 ` version string, the server reads the
command line and replies `error version mismatch\n` instead of dropping
silently. -/
theorem handle_req_magic_check :
    (handle_req ("HELO01\n".toList) = .dropBadMagic
      ∧ handle_req_writes (handle_req ("HELO01\n".toList)) = [])
    ∧ (∀ input : List Char, input.length < 6 ∨ (input.take 6).take 4 ≠ "UBCT".toList →
        handle_req input = .dropBadMagic
        ∧ handle_req_writes (handle_req input) = [])
    ∧ (∀ input : List Char, 6 ≤ input.length →
        (input.take 6).take 4 = "UBCT".toList →
        input.take 6 ≠ ("UBCT" ++ toString UNBOUND_CONTROL_VERSION ++ " ").toList →
        ∀ line rest, ssl_read_line (input.drop 6) = some (line, rest) →
        handle_req input = .versionMismatch
        ∧ handle_req_writes (handle_req input) = ["error version mismatch\n"]) := by
  refine ⟨⟨by decide, by decide⟩, ?_, ?_⟩
  · intro input h
    have hcond : min 6 input.length ≠ 6 ∨ (input.take 6).take 4 ≠ "UBCT".toList := by
      rcases h with h | h
      · left
        omega
      · right
        exact h
    constructor
    · rw [handle_req]
      rw [if_pos hcond]
    · rw [handle_req]
      rw [if_pos hcond]
      rfl
  · intro input hlen hpre hne line rest hread
    have hcond : ¬(min 6 input.length ≠ 6 ∨ (input.take 6).take 4 ≠ "UBCT".toList) := by
      push_neg
      exact ⟨by omega, hpre⟩
    constructor
    · rw [handle_req]
      rw [if_neg hcond]
      simp only [hread]
      rw [if_pos hne]
    · rw [handle_req]
      rw [if_neg hcond]
      simp only [hread]
      rw [if_pos hne]
      rfl

/-- Witness for `handle_req_magic_check` at concrete inputs: a short
magic is dropped silently, and `UBCT9 status\n` (right prefix, wrong
version byte) gets the version-mismatch reply. -/
theorem handle_req_magic_check_witness :
    handle_req ("HELO".toList) = .dropBadMagic
    ∧ handle_req ("UBCT9 status\n".toList) = .versionMismatch := by
  constructor
  · exact (handle_req_magic_check.2.1 "HELO".toList (Or.inl (by decide))).1
  · exact (handle_req_magic_check.2.2 "UBCT9 status\n".toList (by decide)
      (by decide) (by decide) "status".toList [] (by decide)).1

/-! ## The command dispatcher and the distribution fanout

`execute_cmd` is modelled as the trace of externally visible actions it
takes: handler invocations (named after the handler function called),
distribution fanouts, and the unknown-command error reply.  The source
is an if-else chain of `cmdcmp` tests tried in order, first match wins;
it is embedded as an ordered dispatch table searched with `find?`, one
row per `else if` branch, in source order.  The `THREADS_DISABLED`
build flag is a parameter, as is whether `rc` is non-null (it is null
when a peer worker re-enters the dispatcher via `daemon_remote_exec`). -/

/-- An externally visible dispatcher action. -/
inductive RcEvent where
| distribute (cmd : String)   -- a distribute_cmd fanout of the verbatim line
| handle (h : String)         -- the named handler function is invoked
| replyUnknown (p : String)   -- ssl_printf error unknown command
deriving DecidableEq, Repr

/-- Predicate `cmdcmp(p, cmd, strlen(cmd))`: the name matches and is followed by
end-of-string, space or tab. -/
def cmdcmp (p : List Char) (cmd : String) : Bool :=
  decide (p.take cmd.length = cmd.toList) &&
  (match p.drop cmd.length with
   | [] => true
   | c :: _ => c == ' ' || c == '\t')

/-- C `isspace` on the characters it recognises in ASCII. -/
def isspace_c (c : Char) : Bool :=
  c == ' ' || c == '\t' || c == '\n' || c == '\x0b' || c == '\x0c' || c == '\r'

/-- Function `skipwhite`: skip leading whitespace. -/
def skipwhite : List Char → List Char
| [] => []
| c :: rest => if isspace_c c then skipwhite rest else c :: rest

/-- One `else if(cmdcmp(p, ...))` branch of the first group of
`execute_cmd`: command name, handler called, and whether the branch
carries its own `must always distribute this cmd` fanout. -/
structure CmdEntry where
  name : String
  handler : String
  always_distribute : Bool
deriving DecidableEq, Repr

/-- The first group of `execute_cmd` branches, those placed before the
`#ifdef THREADS_DISABLED` distribution point, in source order. -/
def execute_cmd_early_table : List CmdEntry :=
  [⟨"stop", "do_stop", false⟩,
   ⟨"reload_keep_cache", "do_reload", false⟩,
   ⟨"reload", "do_reload", false⟩,
   ⟨"fast_reload", "do_fast_reload", false⟩,
   ⟨"stats_noreset", "do_stats", false⟩,
   ⟨"stats", "do_stats", false⟩,
   ⟨"status", "do_status", false⟩,
   ⟨"dump_cache", "dump_cache", false⟩,
   ⟨"load_cache", "load_cache", false⟩,
   ⟨"list_forwards", "do_list_forwards", false⟩,
   ⟨"list_stubs", "do_list_stubs", false⟩,
   ⟨"list_insecure", "do_insecure_list", false⟩,
   ⟨"list_local_zones", "do_list_local_zones", false⟩,
   ⟨"list_local_data", "do_list_local_data", false⟩,
   ⟨"view_list_local_zones", "do_view_list_local_zones", false⟩,
   ⟨"view_list_local_data", "do_view_list_local_data", false⟩,
   ⟨"ratelimit_list", "do_ratelimit_list", false⟩,
   ⟨"ip_ratelimit_list", "do_ip_ratelimit_list", false⟩,
   ⟨"list_auth_zones", "do_list_auth_zones", false⟩,
   ⟨"auth_zone_reload", "do_auth_zone_reload", false⟩,
   ⟨"auth_zone_transfer", "do_auth_zone_transfer", false⟩,
   ⟨"insecure_add", "do_insecure_add", true⟩,
   ⟨"insecure_remove", "do_insecure_remove", true⟩,
   ⟨"flush_stats", "do_flush_stats", true⟩,
   ⟨"flush_requestlist", "do_flush_requestlist", true⟩,
   ⟨"lookup", "do_lookup", false⟩]

/-- The second group of `execute_cmd` branches, placed after the
`#ifdef THREADS_DISABLED` distribution point, in source order. -/
def execute_cmd_tail_table : List (String × String) :=
  [("verbosity", "do_verbosity"),
   ("local_zone_remove", "do_zone_remove"),
   ("local_zones_remove", "do_zones_remove"),
   ("local_zone", "do_zone_add"),
   ("local_zones", "do_zones_add"),
   ("local_data_remove", "do_data_remove"),
   ("local_datas_remove", "do_datas_remove"),
   ("local_data", "do_data_add"),
   ("local_datas", "do_datas_add"),
   ("forward_add", "do_forward_add"),
   ("forward_remove", "do_forward_remove"),
   ("forward", "do_forward"),
   ("stub_add", "do_stub_add"),
   ("stub_remove", "do_stub_remove"),
   ("view_local_zone_remove", "do_view_zone_remove"),
   ("view_local_zone", "do_view_zone_add"),
   ("view_local_data_remove", "do_view_data_remove"),
   ("view_local_datas_remove", "do_view_datas_remove"),
   ("view_local_data", "do_view_data_add"),
   ("view_local_datas", "do_view_datas_add"),
   ("flush_zone", "do_flush_zone"),
   ("flush_type", "do_flush_type"),
   ("flush_infra", "do_flush_infra"),
   ("flush", "do_flush_name"),
   ("dump_requestlist", "do_dump_requestlist"),
   ("dump_infra", "do_dump_infra"),
   ("log_reopen", "do_log_reopen"),
   ("set_option", "do_set_option"),
   ("get_option", "do_get_option"),
   ("flush_bogus", "do_flush_bogus"),
   ("flush_negative", "do_flush_negative"),
   ("rpz_enable", "do_rpz_enable"),
   ("rpz_disable", "do_rpz_disable")]

/-- The command chain below the `#ifdef THREADS_DISABLED` distribution
point of `execute_cmd`, ending in the unknown-command error reply. -/
def execute_cmd_tail (p : List Char) : List RcEvent :=
  match execute_cmd_tail_table.find? (fun t => cmdcmp p t.1) with
  | some t => [.handle t.2]
  | none => [.replyUnknown (String.mk p)]

/-- Function `execute_cmd`: the dispatcher's action trace for one command line.
`threadsDisabled` is the `THREADS_DISABLED` build flag; `rc` is whether
the `rc` argument is non-null (true on the primary worker's control
connection, false for a distributed re-execution).  First-group
commands return before the `THREADS_DISABLED` distribution point; the
four `always_distribute` commands issue their own fanout, before the
local handler runs.  All remaining commands pass the distribution point
— fanout only when `THREADS_DISABLED` and `rc` non-null, again before
local handling — and then the second chain runs. -/
def execute_cmd (threadsDisabled rc : Bool) (cmd : String) : List RcEvent :=
  match execute_cmd_early_table.find? (fun t => cmdcmp (skipwhite cmd.toList) t.name) with
  | some t =>
    (if t.always_distribute && rc then [.distribute cmd] else [])
      ++ [.handle t.handler]
  | none =>
    (if threadsDisabled && rc then [.distribute cmd] else [])
      ++ execute_cmd_tail (skipwhite cmd.toList)

set_option maxHeartbeats 4000000 in
/-- C4 counterexample: three ways the claim fails on the code.
(1) In a threaded build (`THREADS_DISABLED` unset), `local_zone` — a
state-mutating per-worker command — is NOT distributed at all: its trace
holds no distribute event.  (2) Where distribution does happen (the
threads-disabled build, and the four always-distribute commands), the
replay is sent BEFORE the local handler runs, not after it.  (3) The
read-only `get_option` IS distributed in a threads-disabled build. -/
theorem execute_cmd_distribution_counterexample :
    execute_cmd false true "local_zone example. static"
      = [.handle "do_zone_add"]
    ∧ execute_cmd true true "local_zone example. static"
      = [.distribute "local_zone example. static", .handle "do_zone_add"]
    ∧ execute_cmd false true "insecure_add example."
      = [.distribute "insecure_add example.", .handle "do_insecure_add"]
    ∧ execute_cmd true true "get_option verbosity"
      = [.distribute "get_option verbosity", .handle "do_get_option"] := by
  refine ⟨by decide, by decide, by decide, by decide⟩

/-- Distribute events, for the trace-ordering statement. -/
def RcEvent.isDist : RcEvent → Bool
| .distribute _ => true
| _ => false

theorem execute_cmd_tail_single (p : List Char) :
    ∃ e : RcEvent, execute_cmd_tail p = [e] ∧ e.isDist = false := by
  rw [execute_cmd_tail]
  rcases h : execute_cmd_tail_table.find? (fun t => cmdcmp p t.1) with _ | t
  · rw [h]
    exact ⟨_, rfl, rfl⟩
  · rw [h]
    exact ⟨_, rfl, rfl⟩

set_option maxHeartbeats 8000000 in
/-- C4 (amended): distribution policy of the dispatcher.
(1) The early-group read-only commands (`stats`, `status`, `list_*`,
`dump_cache`, `lookup`, ...) are never distributed, in either build.
(2) `insecure_add`, `insecure_remove`, `flush_stats`,
`flush_requestlist` are distributed in every build when issued on the
primary (`rc` non-null), with the replay sent before the local handler.
(3) Commands that fall through to the second group — the state-mutating
commands (`local_zone`, `forward_add`, `flush_zone`, ...) but also
`get_option`, `dump_requestlist`, `dump_infra` — are distributed if and
only if the build has `THREADS_DISABLED` and `rc` is non-null, again
with the replay preceding the local handling.
(4) In every case every distribute event precedes every other event of
the trace: after the leading distribute events no distribute occurs. -/
theorem execute_cmd_distribution_policy :
    (∀ td rc : Bool,
      execute_cmd td rc "stats" = [.handle "do_stats"]
      ∧ execute_cmd td rc "status" = [.handle "do_status"]
      ∧ execute_cmd td rc "list_forwards" = [.handle "do_list_forwards"]
      ∧ execute_cmd td rc "list_local_zones" = [.handle "do_list_local_zones"]
      ∧ execute_cmd td rc "dump_cache" = [.handle "dump_cache"]
      ∧ execute_cmd td rc "lookup example." = [.handle "do_lookup"])
    ∧ (∀ td : Bool,
      execute_cmd td true "insecure_add example."
        = [.distribute "insecure_add example.", .handle "do_insecure_add"]
      ∧ execute_cmd td true "insecure_remove example."
        = [.distribute "insecure_remove example.", .handle "do_insecure_remove"]
      ∧ execute_cmd td true "flush_stats"
        = [.distribute "flush_stats", .handle "do_flush_stats"]
      ∧ execute_cmd td true "flush_requestlist"
        = [.distribute "flush_requestlist", .handle "do_flush_requestlist"])
    ∧ (execute_cmd true true "local_zone example. static"
        = [.distribute "local_zone example. static", .handle "do_zone_add"]
      ∧ execute_cmd false true "local_zone example. static"
        = [.handle "do_zone_add"]
      ∧ execute_cmd true true "forward_add example. 1.2.3.4"
        = [.distribute "forward_add example. 1.2.3.4", .handle "do_forward_add"]
      ∧ execute_cmd false true "forward_add example. 1.2.3.4"
        = [.handle "do_forward_add"]
      ∧ execute_cmd true true "flush_zone example."
        = [.distribute "flush_zone example.", .handle "do_flush_zone"]
      ∧ execute_cmd false true "flush_zone example."
        = [.handle "do_flush_zone"]
      ∧ execute_cmd true false "flush_zone example."
        = [.handle "do_flush_zone"])
    ∧ (∀ (td rc : Bool) (cmd : String),
      ((execute_cmd td rc cmd).dropWhile RcEvent.isDist).all
        (fun e => !e.isDist) = true) := by
  refine ⟨by decide, by decide, by decide, ?_⟩
  intro td rc cmd
  rw [execute_cmd]
  rcases h : execute_cmd_early_table.find?
      (fun t => cmdcmp (skipwhite cmd.toList) t.name) with _ | t
  · rw [h]
    obtain ⟨e, he, hd⟩ := execute_cmd_tail_single (skipwhite cmd.toList)
    rw [he]
    have hdc : ∀ c, RcEvent.isDist (RcEvent.distribute c) = true := fun _ => rfl
    by_cases hb : (td && rc) = true
    · simp [hb, List.dropWhile_cons, hdc, hd]
    · simp only [Bool.not_eq_true] at hb
      simp [hb, List.dropWhile_cons, hd]
  · rw [h]
    have hdc : ∀ c, RcEvent.isDist (RcEvent.distribute c) = true := fun _ => rfl
    have hh : ∀ s, RcEvent.isDist (RcEvent.handle s) = false := fun _ => rfl
    by_cases hb : (t.always_distribute && rc) = true
    · simp [hb, List.dropWhile_cons, hdc, hh]
    · simp only [Bool.not_eq_true] at hb
      simp [hb, List.dropWhile_cons, hh]

/-! ## The distribution fanout `distribute_cmd`

The fanout walks workers `1 .. num-1` (skipping 0, the caller).  For
each peer it always calls `worker_send_cmd(worker_cmd_remote)` and then
attempts `tube_write_msg` with the command line; `ok i` says whether
that write succeeds.  On failure it prints the error to the client and
returns. -/

/-- An action of the distribution fanout. -/
inductive DistEvent where
| send_cmd (i : Nat)   -- worker_send_cmd(workers[i], worker_cmd_remote)
| write_msg (i : Nat)  -- tube_write_msg of the command line to worker i
| reportFail           -- ssl_printf error could not distribute cmd
deriving DecidableEq, Repr

/-- The `for(i=1; i<num; i++)` body of `distribute_cmd` over the
remaining peer indices. -/
def distribute_cmd_loop (ok : Nat → Bool) : List Nat → List DistEvent
| [] => []
| i :: rest =>
  .send_cmd i :: .write_msg i ::
    (if ok i then distribute_cmd_loop ok rest else [.reportFail])

/-- Function `distribute_cmd` with `num` workers: peers are `1 .. num-1`
(`i=0` is me). -/
def distribute_cmd (num : Nat) (ok : Nat → Bool) : List DistEvent :=
  distribute_cmd_loop ok ((List.range num).drop 1)

/-- C9 counterexample: with 4 workers and delivery to peer 1 failing,
the fanout reports the failure and then returns — peers 2 and 3 are
never attempted, contradicting the claim that it continues delivering
to the remaining peers. -/
theorem distribute_cmd_stops_counterexample :
    distribute_cmd 4 (fun i => i != 1)
      = [.send_cmd 1, .write_msg 1, .reportFail]
    ∧ DistEvent.write_msg 2 ∉ distribute_cmd 4 (fun i => i != 1)
    ∧ DistEvent.write_msg 3 ∉ distribute_cmd 4 (fun i => i != 1)
    ∧ DistEvent.reportFail ∈ distribute_cmd 4 (fun i => i != 1) := by
  refine ⟨by decide, by decide, by decide, by decide⟩

/-- C9 (amended): when a delivery to a peer fails, the fanout reports
the failure to the client and abandons the distribution: it delivers to
the peers before the failing one, attempts the failing peer, emits the
error report, and performs no action for any later peer.  When every
delivery succeeds, every peer `1 .. num-1` is delivered to and no
failure is reported. -/
theorem distribute_cmd_stops_at_first_failure :
    (∀ (ok : Nat → Bool) (l : List Nat), (∀ i ∈ l, ok i = true) →
      distribute_cmd_loop ok l
        = l.flatMap (fun i => [.send_cmd i, .write_msg i]))
    ∧ (∀ (ok : Nat → Bool) (l1 : List Nat) (j : Nat) (l2 : List Nat),
        (∀ i ∈ l1, ok i = true) → ok j = false →
        distribute_cmd_loop ok (l1 ++ j :: l2)
          = l1.flatMap (fun i => [.send_cmd i, .write_msg i])
            ++ [.send_cmd j, .write_msg j, .reportFail])
    ∧ (∀ (num : Nat) (ok : Nat → Bool),
        distribute_cmd num ok = distribute_cmd_loop ok ((List.range num).drop 1)) := by
  refine ⟨?_, ?_, fun _ _ => rfl⟩
  · intro ok l h
    induction l with
    | nil => rfl
    | cons i rest ih =>
      have hi : ok i = true := h i (List.mem_cons_self i rest)
      have hr := ih (fun x hx => h x (List.mem_cons_of_mem _ hx))
      simp [distribute_cmd_loop, hi, hr]
  · intro ok l1 j l2 h1 hj
    induction l1 with
    | nil =>
      simp [distribute_cmd_loop, hj]
    | cons i rest ih =>
      have hi : ok i = true := h1 i (List.mem_cons_self i rest)
      have hr := ih (fun x hx => h1 x (List.mem_cons_of_mem _ hx))
      simp only [List.cons_append, distribute_cmd_loop, hi, if_true]
      rw [List.append_eq, hr]
      simp [List.flatMap_cons, List.append_assoc]

/-- Witness for `distribute_cmd_stops_at_first_failure` at 5 workers
with peer 2 failing: peer 1 is delivered to, peer 2 is attempted and the
failure reported, peers 3 and 4 see nothing. -/
theorem distribute_cmd_stops_at_first_failure_witness :
    distribute_cmd 5 (fun i => i != 2)
      = [.send_cmd 1, .write_msg 1, .send_cmd 2, .write_msg 2, .reportFail] := by
  have h3 := distribute_cmd_stops_at_first_failure.2.2 5 (fun i => i != 2)
  have h2 := distribute_cmd_stops_at_first_failure.2.1 (fun i => i != 2)
    [1] 2 [3, 4] (by decide) (by decide)
  rw [h3]
  have hl : (List.range 5).drop 1 = [1] ++ 2 :: [3, 4] := by decide
  rw [hl, h2]
  rfl

/-! ## IPC loop bounds: `sock_poll_timeout` and `fr_send_notification`

Each loop in the source increments a counter first thing and gives up
with a logged error once it exceeds `IPC_LOOP_MAX`, so it runs at most
`IPC_LOOP_MAX` iterations.  The loops are embedded with that remaining
iteration budget as structural fuel, and the environment (what `poll`,
`send` and the quit check return on each iteration) as an oracle
function; the theorems bound the number of iterations for every oracle. -/

/-- What number of loop iterations is too much for ipc retries. -/
def IPC_LOOP_MAX : Nat := 200

/-- Timeout in msec for ipc socket poll. -/
def IPC_NOTIFICATION_WAIT : Nat := 200

/-- Outcome of one `poll` system call. -/
inductive PollOutcome where
| transient  -- EINTR / EAGAIN / EWOULDBLOCK: loop again
| fatal      -- another errno: log and fail
| timeout    -- poll returned 0
| ready      -- the event happened
deriving DecidableEq, Repr

/-- Result of `sock_poll_timeout`: the C return value, the `*event`
output, and how many `poll` system calls were made. -/
structure SockPollResult where
  ok : Bool
  ev : Bool
  polls : Nat
deriving DecidableEq, Repr

/-- The `while(1)` loop of `sock_poll_timeout`: `fuel` is the remaining
budget `IPC_LOOP_MAX - loopcount`; exhausting it is the
`++loopcount > IPC_LOOP_MAX` exit (log_err, `*event = 0`, return 0). -/
def sock_poll_timeout_loop (out : Nat → PollOutcome) (idx : Nat) :
    Nat → SockPollResult
| 0 => ⟨false, false, 0⟩
| fuel + 1 =>
  match out idx with
  | .transient =>
    let r := sock_poll_timeout_loop out (idx + 1) fuel
    ⟨r.ok, r.ev, r.polls + 1⟩
  | .fatal => ⟨false, false, 1⟩
  | .timeout => ⟨true, false, 1⟩
  | .ready => ⟨true, true, 1⟩

/-- Function `sock_poll_timeout`, with `out n` the outcome of the n-th `poll`
call on this entry. -/
def sock_poll_timeout (out : Nat → PollOutcome) : SockPollResult :=
  sock_poll_timeout_loop out 0 IPC_LOOP_MAX

/-- What one iteration of the `fr_send_notification` loop runs into:
the poll/quit-check/send sequence collapsed to its first decisive
outcome. -/
inductive SendIterOutcome where
| pollFail          -- sock_poll_timeout itself failed: return
| quit              -- fr_poll_for_quit observed the exit notification: return
| noEvent           -- poll timed out with no writability: continue
| sendTransientErr  -- send gave EINTR/EAGAIN/EWOULDBLOCK: continue
| sendFatalErr      -- send gave another errno: log and return
| sendBytes (n : Nat)  -- send accepted n more bytes of the 4-byte word
deriving DecidableEq, Repr

/-- Observable run of `fr_send_notification`: iterations of the retry
loop, the timeout passed to each `sock_poll_timeout` call, and whether
all four notification bytes were delivered. -/
structure SendNotificationRun where
  iterations : Nat
  pollTimeouts : List Nat
  delivered : Bool
deriving DecidableEq, Repr

/-- The `while(1)` loop of `fr_send_notification`: `bcount` bytes of the
4-byte word already sent, `fuel` the remaining `IPC_LOOP_MAX` budget;
exhausting it is the `++loopexit > IPC_LOOP_MAX` exit.  Every iteration
polls for writability with timeout `IPC_NOTIFICATION_WAIT`. -/
def fr_send_notification_loop (env : Nat → SendIterOutcome) (bcount idx : Nat) :
    Nat → SendNotificationRun
| 0 => ⟨0, [], false⟩
| fuel + 1 =>
  match env idx with
  | .pollFail => ⟨1, [IPC_NOTIFICATION_WAIT], false⟩
  | .quit => ⟨1, [IPC_NOTIFICATION_WAIT], false⟩
  | .noEvent =>
    let r := fr_send_notification_loop env bcount (idx + 1) fuel
    ⟨r.iterations + 1, IPC_NOTIFICATION_WAIT :: r.pollTimeouts, r.delivered⟩
  | .sendTransientErr =>
    let r := fr_send_notification_loop env bcount (idx + 1) fuel
    ⟨r.iterations + 1, IPC_NOTIFICATION_WAIT :: r.pollTimeouts, r.delivered⟩
  | .sendFatalErr => ⟨1, [IPC_NOTIFICATION_WAIT], false⟩
  | .sendBytes n =>
    if bcount + n < 4 then
      let r := fr_send_notification_loop env (bcount + n) (idx + 1) fuel
      ⟨r.iterations + 1, IPC_NOTIFICATION_WAIT :: r.pollTimeouts, r.delivered⟩
    else ⟨1, [IPC_NOTIFICATION_WAIT], true⟩

/-- Function `fr_send_notification`: the initial `fr_poll_for_quit` check before
the loop (`initialQuit`), then the bounded retry loop. -/
def fr_send_notification (initialQuit : Bool) (env : Nat → SendIterOutcome) :
    SendNotificationRun :=
  if initialQuit then ⟨0, [], false⟩
  else fr_send_notification_loop env 0 0 IPC_LOOP_MAX

theorem sock_poll_timeout_loop_polls_le (out : Nat → PollOutcome) :
    ∀ (fuel idx : Nat), (sock_poll_timeout_loop out idx fuel).polls ≤ fuel := by
  intro fuel
  induction fuel with
  | zero => intro idx; simp [sock_poll_timeout_loop]
  | succ m ih =>
    intro idx
    rw [sock_poll_timeout_loop]
    rcases out idx with _ | _ | _ | _
    · have := ih (idx + 1)
      simp only []
      omega
    · simp
    · simp
    · simp

theorem fr_send_notification_loop_bound (env : Nat → SendIterOutcome) :
    ∀ (fuel bcount idx : Nat),
      (fr_send_notification_loop env bcount idx fuel).iterations ≤ fuel
      ∧ ∀ t ∈ (fr_send_notification_loop env bcount idx fuel).pollTimeouts,
          t = IPC_NOTIFICATION_WAIT := by
  intro fuel
  induction fuel with
  | zero =>
    intro bcount idx
    simp [fr_send_notification_loop]
  | succ m ih =>
    intro bcount idx
    rw [fr_send_notification_loop]
    rcases env idx with _ | _ | _ | _ | _ | n
    · simp
    · simp
    · have h1 := (ih bcount (idx + 1)).1
      have h2 := (ih bcount (idx + 1)).2
      refine ⟨?_, ?_⟩
      · simp only []
        omega
      · intro t ht
        simp only [] at ht
        rcases List.mem_cons.mp ht with h | h
        · exact h
        · exact h2 t h
    · have h1 := (ih bcount (idx + 1)).1
      have h2 := (ih bcount (idx + 1)).2
      refine ⟨?_, ?_⟩
      · simp only []
        omega
      · intro t ht
        simp only [] at ht
        rcases List.mem_cons.mp ht with h | h
        · exact h
        · exact h2 t h
    · simp
    · simp only []
      by_cases hb : bcount + n < 4
      · rw [if_pos hb]
        have h1 := (ih (bcount + n) (idx + 1)).1
        have h2 := (ih (bcount + n) (idx + 1)).2
        refine ⟨?_, ?_⟩
        · simp only []
          omega
        · intro t ht
          simp only [] at ht
          rcases List.mem_cons.mp ht with h | h
          · exact h
          · exact h2 t h
      · rw [if_neg hb]
        simp

/-- C8: the IPC primitives are loop-bounded.  `IPC_LOOP_MAX` is 200 and
`IPC_NOTIFICATION_WAIT` is 200 (milliseconds); the `sock_poll_timeout`
helper makes at most `IPC_LOOP_MAX` poll system calls before giving up;
and the `fr_send_notification` writer runs its retry loop at most
`IPC_LOOP_MAX` times — whatever the descriptor does — with every
writability wait polled at timeout `IPC_NOTIFICATION_WAIT`. -/
theorem ipc_loops_are_bounded :
    IPC_LOOP_MAX = 200
    ∧ IPC_NOTIFICATION_WAIT = 200
    ∧ (∀ out : Nat → PollOutcome,
        (sock_poll_timeout out).polls ≤ IPC_LOOP_MAX)
    ∧ (∀ (initialQuit : Bool) (env : Nat → SendIterOutcome),
        (fr_send_notification initialQuit env).iterations ≤ IPC_LOOP_MAX)
    ∧ (∀ (initialQuit : Bool) (env : Nat → SendIterOutcome),
        ∀ t ∈ (fr_send_notification initialQuit env).pollTimeouts,
          t = IPC_NOTIFICATION_WAIT) := by
  refine ⟨rfl, rfl, ?_, ?_, ?_⟩
  · intro out
    exact sock_poll_timeout_loop_polls_le out IPC_LOOP_MAX 0
  · intro iq env
    cases iq with
    | true => simp [fr_send_notification]
    | false =>
      have := (fr_send_notification_loop_bound env IPC_LOOP_MAX 0 0).1
      simpa [fr_send_notification] using this
  · intro iq env t ht
    cases iq with
    | true => simp [fr_send_notification] at ht
    | false =>
      have := (fr_send_notification_loop_bound env IPC_LOOP_MAX 0 0).2
      apply this
      simpa [fr_send_notification] using ht

/-- Witness for `ipc_loops_are_bounded` on a concrete broken-descriptor
oracle: a poll that always reports a transient error makes exactly 200
poll calls and gives up, and a writer against a never-writable socket
runs exactly 200 iterations, each polled at 200 msec, without
delivering. -/
theorem ipc_loops_are_bounded_witness :
    (sock_poll_timeout (fun _ => PollOutcome.transient)).polls ≤ IPC_LOOP_MAX
    ∧ (fr_send_notification false (fun _ => SendIterOutcome.noEvent)).iterations
        ≤ IPC_LOOP_MAX
    ∧ (sock_poll_timeout (fun _ => PollOutcome.transient)).ok = false := by
  refine ⟨ipc_loops_are_bounded.2.2.1 (fun _ => PollOutcome.transient),
    ipc_loops_are_bounded.2.2.2.1 false (fun _ => SendIterOutcome.noEvent),
    by decide⟩

/-! ## Fast-reload pause IPC: `fr_reload_ipc` and
`fr_main_perform_reload_stop`

Both functions are straight-line; they are embedded as the sequence of
IPC actions they perform, in program order. -/

/-- The `fast_reload_notification` enumeration. -/
inductive FastReloadNotification where
| notification_none
| done
| done_error
| exit
| exited
| printout
| reload_stop
| reload_ack
| reload_nopause_poll
| reload_start
deriving DecidableEq, Repr

/-- An IPC action of the background fast-reload thread. -/
inductive BgEvent where
| send (n : FastReloadNotification)  -- fr_send_notification over commpair
| wait_ack                           -- fr_poll_for_ack: blocking wait for reload_ack
| reload_config (ok : Bool)          -- fr_reload_config: the config/tree swap
deriving DecidableEq, Repr

/-- Function `fr_reload_ipc`: if not no-pause, send `reload_stop` and wait for
the ack; perform the swap (`fr_reload_config`, which clears `result` on
failure); if not no-pause, send `reload_start`.  Returns the action
trace and the C return value. -/
def fr_reload_ipc (fr_nopause : Bool) (swapOk : Bool) : List BgEvent × Bool :=
  ((if !fr_nopause then [BgEvent.send .reload_stop, BgEvent.wait_ack] else [])
    ++ [BgEvent.reload_config swapOk]
    ++ (if !fr_nopause then [BgEvent.send .reload_start] else []),
   swapOk)

/-- A command kind sent over a worker's command tube. -/
inductive WorkerCmd where
| reload_stop
| reload_start
| reload_poll
| remote
deriving DecidableEq, Repr

/-- An action of the main thread while it handles `reload_stop`. -/
inductive MainEvent where
| send_cmd (i : Nat) (c : WorkerCmd)  -- worker_send_cmd(daemon->workers[i], c)
| read_acks (n : Nat)                 -- fr_read_ack_from_workers: n ack bytes on commreload
| ack_to_fr                           -- fr_send_cmd_to(reload_ack) to the bg thread
| wait_reload_start                   -- fr_poll_for_reload_start
| drop_mesh                           -- mesh_delete_all on fast_reload_drop_mesh
deriving DecidableEq, Repr

/-- The `for(i=0; i<daemon->num; i++) if(i != thread_num) worker_send_cmd`
broadcast of `fr_main_perform_reload_stop`. -/
def fr_broadcast (num selfIdx : Nat) (c : WorkerCmd) : List MainEvent :=
  ((List.range num).filter (fun i => i != selfIdx)).map
    (fun i => MainEvent.send_cmd i c)

/-- Function `fr_read_ack_from_workers`: every worker sends one byte; wait for
`daemon->num - 1` bytes on `commreload[0]`. -/
def fr_read_ack_from_workers (num : Nat) : MainEvent :=
  .read_acks (num - 1)

/-- Function `fr_main_perform_reload_stop`: broadcast `worker_cmd_reload_stop` to
every worker but this one, collect the acks, ack the background thread,
wait for `reload_start`, broadcast `worker_cmd_reload_start` to every
worker but this one, and drop the mesh if requested. -/
def fr_main_perform_reload_stop (num selfIdx : Nat) (dropMesh : Bool) :
    List MainEvent :=
  fr_broadcast num selfIdx .reload_stop
  ++ [fr_read_ack_from_workers num, .ack_to_fr, .wait_reload_start]
  ++ fr_broadcast num selfIdx .reload_start
  ++ (if dropMesh then [.drop_mesh] else [])

theorem fr_broadcast_mem (num selfIdx : Nat) (c : WorkerCmd) (i : Nat) :
    MainEvent.send_cmd i c ∈ fr_broadcast num selfIdx c
      ↔ (i < num ∧ i ≠ selfIdx) := by
  unfold fr_broadcast
  constructor
  · intro h
    obtain ⟨j, hj, hje⟩ := List.mem_map.mp h
    obtain ⟨hjr, hjne⟩ := List.mem_filter.mp hj
    cases hje
    exact ⟨List.mem_range.mp hjr, by simpa using hjne⟩
  · rintro ⟨h1, h2⟩
    exact List.mem_map.mpr ⟨i,
      List.mem_filter.mpr ⟨List.mem_range.mpr h1, by simpa using h2⟩, rfl⟩

theorem fr_broadcast_only (num selfIdx : Nat) (c : WorkerCmd) :
    ∀ e ∈ fr_broadcast num selfIdx c, ∃ i, e = MainEvent.send_cmd i c := by
  intro e he
  obtain ⟨j, _, hje⟩ := List.mem_map.mp he
  exact ⟨j, hje.symm⟩

/-- C1: ordering of the paused-mode reload IPC.  In paused mode
(no-pause unset) the background thread's trace is exactly: send
`reload_stop`, wait for `reload_ack`, perform the swap, send
`reload_start` — so the swap happens after the ack is received and
`reload_start` is sent only after the swap.  On `reload_stop` the main
thread's trace is exactly: broadcast `worker_cmd_reload_stop` to every
worker other than itself (and only those), wait for `num - 1` ack bytes
on commreload, send `reload_ack` to the background thread, wait for
`reload_start`, and only then broadcast `worker_cmd_reload_start` to
every worker other than itself. -/
theorem fr_reload_ipc_paused_ordering :
    (∀ swapOk : Bool,
      fr_reload_ipc false swapOk
        = ([BgEvent.send .reload_stop, BgEvent.wait_ack,
            BgEvent.reload_config swapOk, BgEvent.send .reload_start], swapOk))
    ∧ (∀ (num selfIdx : Nat) (dropMesh : Bool),
        fr_main_perform_reload_stop num selfIdx dropMesh
          = fr_broadcast num selfIdx .reload_stop
            ++ [MainEvent.read_acks (num - 1), .ack_to_fr, .wait_reload_start]
            ++ fr_broadcast num selfIdx .reload_start
            ++ (if dropMesh then [.drop_mesh] else []))
    ∧ (∀ (num selfIdx i : Nat) (c : WorkerCmd),
        MainEvent.send_cmd i c ∈ fr_broadcast num selfIdx c
          ↔ (i < num ∧ i ≠ selfIdx))
    ∧ (∀ (num selfIdx : Nat) (c : WorkerCmd),
        ∀ e ∈ fr_broadcast num selfIdx c, ∃ i, e = MainEvent.send_cmd i c) := by
  refine ⟨fun _ => rfl, fun _ _ _ => rfl, ?_, ?_⟩
  · intro num selfIdx i c
    exact fr_broadcast_mem num selfIdx c i
  · intro num selfIdx c
    exact fr_broadcast_only num selfIdx c

/-- Witness for `fr_reload_ipc_paused_ordering` with 3 workers, the
main thread being worker 0: the broadcasts reach exactly workers 1 and
2, two ack bytes are awaited, and the full trace is in claim order. -/
theorem fr_reload_ipc_paused_ordering_witness :
    fr_main_perform_reload_stop 3 0 false
      = [MainEvent.send_cmd 1 .reload_stop, MainEvent.send_cmd 2 .reload_stop,
         MainEvent.read_acks 2, MainEvent.ack_to_fr, MainEvent.wait_reload_start,
         MainEvent.send_cmd 1 .reload_start, MainEvent.send_cmd 2 .reload_start]
    ∧ (MainEvent.send_cmd 1 WorkerCmd.reload_stop
        ∈ fr_broadcast 3 0 WorkerCmd.reload_stop)
    ∧ ¬(MainEvent.send_cmd 0 WorkerCmd.reload_stop
        ∈ fr_broadcast 3 0 WorkerCmd.reload_stop) := by
  refine ⟨?_, ?_, ?_⟩
  · rw [fr_reload_ipc_paused_ordering.2.1 3 0 false]
    decide
  · exact (fr_reload_ipc_paused_ordering.2.2.1 3 0 1 WorkerCmd.reload_stop).mpr
      (by decide)
  · intro h
    have := (fr_reload_ipc_paused_ordering.2.2.1 3 0 0 WorkerCmd.reload_stop).mp h
    exact this.2 rfl

/-! ## The control listener's active counter and busy list

`daemon_remote` keeps `active`, the singly-linked `busy_list` of
`rc_state` sessions, and the `max_active` bound.  Sessions are
identified here by the id of their comm point.  The operations that
touch the pair are `remote_accept_callback` (link at head, increment),
`clean_point` (unlink, decrement — unless the state was picked up and
moved away, when only the shell is freed), and the absorption step of
`fast_reload_thread_start` (unlink, decrement, then hand the comm point
to the printq). -/

/-- The parts of `struct daemon_remote` the claim is about. -/
structure DaemonRemote where
  max_active : Nat
  active : Nat
  busy_list : List Nat
deriving DecidableEq, Repr

/-- How `remote_accept_callback` disposed of the new connection. -/
inductive AcceptResult where
| droppedTooMany    -- active ≥ max_active: log_warn, close, no session
| droppedAllocFail  -- calloc / comm point / SSL failure: close, no session
| accepted          -- session created and linked
deriving DecidableEq, Repr

/-- Function `remote_accept_callback` after a successful accept of fd `newId`:
drop when servicing `max_active` already; drop on allocation failure
(`allocOk` false collapses the calloc/comm-point/SSL failure exits, none
of which touch the list); else link the new state at the head of the
busy list and increment `active`. -/
def remote_accept_callback (rc : DaemonRemote) (newId : Nat) (allocOk : Bool) :
    DaemonRemote × AcceptResult :=
  if rc.max_active ≤ rc.active then (rc, .droppedTooMany)
  else if !allocOk then (rc, .droppedAllocFail)
  else ({ rc with busy_list := newId :: rc.busy_list, active := rc.active + 1 },
        .accepted)

/-- Function `state_list_remove_elem`: remove the first state whose comm point is
`c` from the busy list. -/
def state_list_remove_elem : List Nat → Nat → List Nat
| [], _ => []
| x :: rest, c => if x = c then rest else x :: state_list_remove_elem rest c

/-- Function `clean_point` on a session whose `s->rc` back pointer is still set
(`moved` false): unlink from the busy list and decrement `active`.  When
the state has been picked up and moved away (`moved` true) only the
shell is freed and the server is untouched. -/
def clean_point (rc : DaemonRemote) (moved : Bool) (c : Nat) : DaemonRemote :=
  if moved then rc
  else { rc with busy_list := state_list_remove_elem rc.busy_list c,
                 active := rc.active - 1 }

/-- The busy-list step of `fast_reload_thread_start`
(`state_list_remove_elem(&s->rc->busy_list, s->c); s->rc->active--;`):
the session is unlinked and the counter decremented. -/
def fast_reload_thread_start_unlink (rc : DaemonRemote) (c : Nat) : DaemonRemote :=
  { rc with busy_list := state_list_remove_elem rc.busy_list c,
            active := rc.active - 1 }

/-- The busy-list part of `fast_reload_thread_start` from the unlink
onwards: unlink and decrement; then `fr_printq_create`.  On success the
comm point moves to the printq and `s->rc` is nulled; on allocation
failure the function returns early with `s->rc` still set — the nulling
sits after the failure exit.  Returns the server state and whether the
session was moved away (`s->rc` nulled). -/
def fast_reload_thread_start_busy (rc : DaemonRemote) (c : Nat)
    (printqCreateOk : Bool) : DaemonRemote × Bool :=
  (fast_reload_thread_start_unlink rc c, printqCreateOk)

/-- Servicing a `fast_reload` command that reaches the unlink in
`fast_reload_thread_start`: the handler runs, and then
`remote_control_callback` unconditionally calls `clean_point` on the
session, with whatever back-pointer state the handler left (the
callback cached `rc = s->rc` at entry, so the full `clean_point` path
is taken whenever `s->rc` was not nulled). -/
def remote_control_service_fast_reload (rc : DaemonRemote) (c : Nat)
    (printqCreateOk : Bool) : DaemonRemote :=
  clean_point (fast_reload_thread_start_busy rc c printqCreateOk).1
    (fast_reload_thread_start_busy rc c printqCreateOk).2 c

/-- The states the control listener can reach.  `clean` is the
unconditional `clean_point` at the end of servicing any command other
than a `fast_reload` that reached the unlink (also timeouts, handshake
and authentication failures, and the `fast_reload` exits before the
unlink): there the session is still linked — it was linked by accept and
only `clean_point` itself or the fast-reload unlink take it off — and
its back pointer is set.  `serviceFastReload` is a `fast_reload` that
reached the unlink, with `ok` telling whether `fr_printq_create`
succeeded, followed by the unconditional `clean_point`. -/
inductive RcReach : DaemonRemote → Prop where
| init (m : Nat) : RcReach ⟨m, 0, []⟩
| accept (st : DaemonRemote) (newId : Nat) (allocOk : Bool) :
    RcReach st → RcReach (remote_accept_callback st newId allocOk).1
| clean (st : DaemonRemote) (c : Nat) :
    RcReach st → c ∈ st.busy_list → RcReach (clean_point st false c)
| serviceFastReload (st : DaemonRemote) (c : Nat) (ok : Bool) :
    RcReach st → c ∈ st.busy_list →
    RcReach (remote_control_service_fast_reload st c ok)

/-- C2 (code bug): the invariant `active = |busy_list|` is what the code
intends — `clean_point` pairs the decrement with the unlink, and the
successful fast-reload absorption nulls `s->rc` so the later
`clean_point` only frees the shell — but the code breaks it on the
`fr_printq_create` failure path of `fast_reload_thread_start`: the
session is unlinked and `active` decremented, the failure exit returns
with `s->rc` still set, and the unconditional `clean_point` at the end
of `remote_control_callback` decrements `active` a second time.  From
the reachable two-session state, a successful fast_reload keeps
`active = |busy_list|`, while the allocation-failure run leaves
`active = 0` with one session still on the busy list — and that broken
state is reachable.  (The accept-at-capacity conjunct of the claim does
hold: a full server drops the connection untouched.) -/
theorem remote_control_active_double_decrement :
    RcReach ⟨10, 2, [5, 7]⟩
    ∧ remote_control_service_fast_reload ⟨10, 2, [5, 7]⟩ 5 true = ⟨10, 1, [7]⟩
    ∧ remote_control_service_fast_reload ⟨10, 2, [5, 7]⟩ 5 false = ⟨10, 0, [7]⟩
    ∧ (remote_control_service_fast_reload ⟨10, 2, [5, 7]⟩ 5 false).active
        ≠ (remote_control_service_fast_reload ⟨10, 2, [5, 7]⟩ 5 false).busy_list.length
    ∧ RcReach (remote_control_service_fast_reload ⟨10, 2, [5, 7]⟩ 5 false)
    ∧ remote_accept_callback ⟨1, 1, [5]⟩ 7 true = (⟨1, 1, [5]⟩, .droppedTooMany) := by
  have h1 := RcReach.accept ⟨10, 0, []⟩ 7 true (RcReach.init 10)
  have h1e : (remote_accept_callback ⟨10, 0, []⟩ 7 true).1 = ⟨10, 1, [7]⟩ := by
    decide
  rw [h1e] at h1
  have h2 := RcReach.accept ⟨10, 1, [7]⟩ 5 true h1
  have h2e : (remote_accept_callback ⟨10, 1, [7]⟩ 5 true).1 = ⟨10, 2, [5, 7]⟩ := by
    decide
  rw [h2e] at h2
  refine ⟨h2, by decide, by decide, by decide, ?_, by decide⟩
  exact RcReach.serviceFastReload ⟨10, 2, [5, 7]⟩ 5 false h2 (by decide)

/-! ## Printq ownership: thread backlink and the daemon orphan list

A `fast_reload_printq` is identified by the id of its allocation.  The
daemon state tracks the fast-reload thread (absent, or present with its
`printq` pointer), the heap of live printqs, and the daemon's
`fast_reload_printq_list` of orphan ids.  The operations are the printq
steps of `fast_reload_thread_start` (create), `fr_main_perform_printout`
(splice background output), `fast_reload_thread_desetup` (destroy when
drained, orphan otherwise) and `fr_printq_remove` (stream closed or
errored). -/

/-- The fields of `struct fast_reload_printq` the claim is about. -/
structure FastReloadPrintq where
  id : Nat
  to_print : List String
  client_item : Option String
  in_list : Bool
deriving DecidableEq, Repr

/-- The daemon as seen by the printq operations: the fast-reload thread
(`none` when not running, else its `printq` pointer), the live printqs,
and `daemon->fast_reload_printq_list` as a list of ids. -/
structure FrDaemon where
  fast_reload_thread : Option (Option Nat)
  printqs : List FastReloadPrintq
  fast_reload_printq_list : List Nat
deriving DecidableEq, Repr

/-- Rewrite the live printq with id `i` through `f` (the heap update of
a store through the printq pointer). -/
def pq_update (l : List FastReloadPrintq) (i : Nat)
    (f : FastReloadPrintq → FastReloadPrintq) : List FastReloadPrintq :=
  l.map (fun q => if q.id = i then f q else q)

/-- Predicate `fr_printq_empty`: true when `to_print` has no first item and no
`client_item` is in flight. -/
def fr_printq_empty (q : FastReloadPrintq) : Bool :=
  q.to_print.isEmpty && q.client_item.isNone

/-- Function `fr_printq_list_insert`: if `in_list` is already set do nothing,
else link the printq into `daemon->fast_reload_printq_list` at the head
and set `in_list`. -/
def fr_printq_list_insert (st : FrDaemon) (i : Nat) : FrDaemon :=
  if st.printqs.any (fun q => decide (q.id = i) && q.in_list) then st
  else { st with
    printqs := pq_update st.printqs i (fun q => { q with in_list := true }),
    fast_reload_printq_list := i :: st.fast_reload_printq_list }

/-- Function `fr_printq_delete`: free the printq (its comm point, strings and
struct): remove it from the heap. -/
def fr_printq_delete_st (st : FrDaemon) (i : Nat) : FrDaemon :=
  { st with printqs := st.printqs.filter (fun q => !(decide (q.id = i))) }

/-- Function `fr_printq_list_remove`: unlink from the daemon list and clear
`in_list`. -/
def fr_printq_list_remove (st : FrDaemon) (i : Nat) : FrDaemon :=
  { st with
    fast_reload_printq_list := st.fast_reload_printq_list.erase i,
    printqs := pq_update st.printqs i (fun q => { q with in_list := false }) }

/-- The first step of `fr_printq_remove`: when the running thread's
`printq` pointer points at this printq, null it. -/
def fr_printq_remove_clear_thread (st : FrDaemon) (i : Nat) : FrDaemon :=
  match st.fast_reload_thread with
  | some (some j) =>
    if j = i then { st with fast_reload_thread := some none } else st
  | _ => st

/-- Function `fr_printq_remove`: clear the thread's `printq` pointer when it
points here, unlink from the daemon list when `in_list`, and delete. -/
def fr_printq_remove (st : FrDaemon) (i : Nat) : FrDaemon :=
  fr_printq_delete_st
    (if (fr_printq_remove_clear_thread st i).printqs.any
        (fun q => decide (q.id = i) && q.in_list) then
      fr_printq_list_remove (fr_printq_remove_clear_thread st i) i
    else fr_printq_remove_clear_thread st i) i

/-- Function `fr_main_perform_printout` on the heap: when the thread is running
and its printq is live, splice the background output list onto
`printq->to_print`. -/
def fr_main_perform_printout_st (st : FrDaemon) (splice : List String) : FrDaemon :=
  match st.fast_reload_thread with
  | some (some i) =>
    { st with printqs :=
        pq_update st.printqs i (fun q => { q with to_print := q.to_print ++ splice }) }
  | _ => st

/-- Function `fast_reload_thread_desetup`, printq part: splice the remaining
output; then if the printq is empty delete it, else insert it into the
daemon orphan list with `in_list` set and clear the thread's pointer;
finally the thread itself goes away. -/
def fast_reload_thread_desetup (st : FrDaemon) (splice : List String) : FrDaemon :=
  match st.fast_reload_thread with
  | none => st
  | some none => { st with fast_reload_thread := none }
  | some (some i) =>
    match (fr_main_perform_printout_st st splice).printqs.find?
        (fun q => decide (q.id = i)) with
    | none => { fr_main_perform_printout_st st splice with fast_reload_thread := none }
    | some q =>
      if fr_printq_empty q then
        { fr_printq_delete_st (fr_main_perform_printout_st st splice) i with
            fast_reload_thread := none }
      else
        { fr_printq_list_insert (fr_main_perform_printout_st st splice) i with
            fast_reload_thread := none }

/-- The printq step of `fast_reload_thread_start`: the thread comes up
with a fresh printq holding the moved comm point; nothing to print yet,
not on any list. -/
def fast_reload_thread_start_pq (st : FrDaemon) (newId : Nat) : FrDaemon :=
  { st with fast_reload_thread := some (some newId),
            printqs := ⟨newId, [], none, false⟩ :: st.printqs }

/-- The printq ownership invariant: every live printq either is the one
the running fast-reload thread points at (then not on the orphan list,
`in_list` clear), or sits on the daemon orphan list with `in_list` set;
the orphan list only holds ids of live printqs with `in_list` set; ids
and the orphan list are duplicate-free. -/
def PrintqInv (st : FrDaemon) : Prop :=
  (∀ q ∈ st.printqs,
    (st.fast_reload_thread = some (some q.id) ∧ q.in_list = false
      ∧ q.id ∉ st.fast_reload_printq_list)
    ∨ (st.fast_reload_thread ≠ some (some q.id) ∧ q.in_list = true
      ∧ q.id ∈ st.fast_reload_printq_list))
  ∧ (∀ i ∈ st.fast_reload_printq_list,
      ∃ q, q ∈ st.printqs ∧ q.id = i ∧ q.in_list = true)
  ∧ (st.printqs.map (fun q => q.id)).Nodup
  ∧ st.fast_reload_printq_list.Nodup

/-- The reachable daemon printq states.  `fast_reload_thread_start`
refuses to run when a thread already exists, and its fresh allocation
has an unused id. -/
inductive FrReach : FrDaemon → Prop where
| init : FrReach ⟨none, [], []⟩
| start (st : FrDaemon) (newId : Nat) :
    FrReach st → st.fast_reload_thread = none →
    (∀ q ∈ st.printqs, q.id ≠ newId) →
    FrReach (fast_reload_thread_start_pq st newId)
| printout (st : FrDaemon) (splice : List String) :
    FrReach st → FrReach (fr_main_perform_printout_st st splice)
| desetup (st : FrDaemon) (splice : List String) :
    FrReach st → FrReach (fast_reload_thread_desetup st splice)
| remove (st : FrDaemon) (i : Nat) :
    FrReach st → FrReach (fr_printq_remove st i)

theorem pq_update_ids (l : List FastReloadPrintq) (i : Nat)
    (f : FastReloadPrintq → FastReloadPrintq) (hf : ∀ q, (f q).id = q.id) :
    (pq_update l i f).map (fun q => q.id) = l.map (fun q => q.id) := by
  unfold pq_update
  rw [List.map_map]
  apply List.map_congr_left
  intro q _
  by_cases h : q.id = i
  · simp [Function.comp, h, hf]
  · simp [Function.comp, h]

theorem PrintqInv.update (st : FrDaemon) (i : Nat)
    (f : FastReloadPrintq → FastReloadPrintq)
    (hid : ∀ q, (f q).id = q.id) (hin : ∀ q, (f q).in_list = q.in_list)
    (h : PrintqInv st) :
    PrintqInv { st with printqs := pq_update st.printqs i f } := by
  obtain ⟨h1, h2, h3, h4⟩ := h
  refine ⟨?_, ?_, ?_, h4⟩
  · intro q2 hq2
    obtain ⟨q, hq, hqe⟩ := List.mem_map.mp hq2
    have hqid : q2.id = q.id := by
      by_cases hc : q.id = i
      · rw [← hqe]
        simp [hc, hid]
      · rw [← hqe]
        simp [hc]
    have hqin : q2.in_list = q.in_list := by
      by_cases hc : q.id = i
      · rw [← hqe]
        simp [hc, hin]
      · rw [← hqe]
        simp [hc]
    rcases h1 q hq with ⟨a, b, c⟩ | ⟨a, b, c⟩
    · exact Or.inl ⟨by rw [hqid]; exact a, by rw [hqin]; exact b,
        by rw [hqid]; exact c⟩
    · exact Or.inr ⟨by rw [hqid]; exact a, by rw [hqin]; exact b,
        by rw [hqid]; exact c⟩
  · intro j hj
    obtain ⟨q, hq, hqi, hqin⟩ := h2 j hj
    refine ⟨if q.id = i then f q else q, List.mem_map.mpr ⟨q, hq, rfl⟩, ?_, ?_⟩
    · by_cases hc : q.id = i
      · simp only [if_pos hc, hid]
        exact hqi
      · simp only [if_neg hc]
        exact hqi
    · by_cases hc : q.id = i
      · simp only [if_pos hc, hin]
        exact hqin
      · simp only [if_neg hc]
        exact hqin
  · show ((pq_update st.printqs i f).map (fun q => q.id)).Nodup
    rw [pq_update_ids _ _ _ hid]
    exact h3

theorem PrintqInv.start (st : FrDaemon) (newId : Nat)
    (hthread : st.fast_reload_thread = none)
    (hfresh : ∀ q ∈ st.printqs, q.id ≠ newId)
    (h : PrintqInv st) :
    PrintqInv (fast_reload_thread_start_pq st newId) := by
  obtain ⟨h1, h2, h3, h4⟩ := h
  refine ⟨?_, ?_, ?_, h4⟩
  · intro q hq
    rcases List.mem_cons.mp hq with rfl | hq2
    · refine Or.inl ⟨rfl, rfl, ?_⟩
      intro hmem
      obtain ⟨q2, hq2, hq2i, _⟩ := h2 _ hmem
      exact hfresh q2 hq2 hq2i
    · rcases h1 q hq2 with ⟨a, _, _⟩ | ⟨_, b, c⟩
      · rw [hthread] at a
        exact Option.noConfusion a
      · refine Or.inr ⟨?_, b, c⟩
        intro he
        have h5 : some newId = some q.id := Option.some.inj he
        exact hfresh q hq2 (Option.some.inj h5).symm
  · intro j hj
    obtain ⟨q2, hq2, b, c⟩ := h2 j hj
    exact ⟨q2, List.mem_cons_of_mem _ hq2, b, c⟩
  · refine List.nodup_cons.mpr ⟨?_, h3⟩
    intro hmem
    obtain ⟨q2, hq2, hq2i⟩ := List.mem_map.mp hmem
    exact hfresh q2 hq2 hq2i

theorem PrintqInv.printout (st : FrDaemon) (splice : List String)
    (h : PrintqInv st) :
    PrintqInv (fr_main_perform_printout_st st splice) := by
  rw [fr_main_perform_printout_st]
  cases hth : st.fast_reload_thread with
  | none => exact h
  | some pq =>
    cases pq with
    | none => exact h
    | some i =>
      show PrintqInv ⟨some (some i), pq_update st.printqs i (fun q => { q with to_print := q.to_print ++ splice }), st.fast_reload_printq_list⟩
      rw [← hth]
      exact PrintqInv.update st i
        (fun q => { q with to_print := q.to_print ++ splice })
        (fun _ => rfl) (fun _ => rfl) h

theorem fr_main_perform_printout_st_thread (st : FrDaemon) (splice : List String) :
    (fr_main_perform_printout_st st splice).fast_reload_thread
      = st.fast_reload_thread := by
  rw [fr_main_perform_printout_st]
  cases hth : st.fast_reload_thread with
  | none => exact hth
  | some pq =>
    cases pq with
    | none => exact hth
    | some i => rfl

theorem fr_main_perform_printout_st_list (st : FrDaemon) (splice : List String) :
    (fr_main_perform_printout_st st splice).fast_reload_printq_list
      = st.fast_reload_printq_list := by
  rw [fr_main_perform_printout_st]
  cases hth : st.fast_reload_thread with
  | none => rfl
  | some pq =>
    cases pq with
    | none => rfl
    | some i => rfl

theorem PrintqInv.desetup (st : FrDaemon) (splice : List String) (h : PrintqInv st) :
    PrintqInv (fast_reload_thread_desetup st splice) := by
  rw [fast_reload_thread_desetup]
  split
  · exact h
  · rename_i hth
    obtain ⟨h1, h2, h3, h4⟩ := h
    refine ⟨?_, h2, h3, h4⟩
    intro q hq
    rcases h1 q hq with ⟨a, _, _⟩ | ⟨_, b, c⟩
    · rw [hth] at a
      exact absurd (Option.some.inj a) (by simp)
    · exact Or.inr ⟨by simp, b, c⟩
  · rename_i i hth
    have hst1 : PrintqInv (fr_main_perform_printout_st st splice) :=
      PrintqInv.printout st splice h
    have hth1 : (fr_main_perform_printout_st st splice).fast_reload_thread
        = some (some i) := by
      rw [fr_main_perform_printout_st_thread, hth]
    obtain ⟨g1, g2, g3, g4⟩ := hst1
    split
    · rename_i hfind
      have hno : ∀ q ∈ (fr_main_perform_printout_st st splice).printqs,
          q.id ≠ i := by
        intro q hq hqe
        have := List.find?_eq_none.mp hfind q hq
        simp [hqe] at this
      refine ⟨?_, g2, g3, g4⟩
      intro q hq
      rcases g1 q hq with ⟨a, _, _⟩ | ⟨_, b, c⟩
      · rw [hth1] at a
        exact absurd (Option.some.inj (Option.some.inj a)).symm (hno q hq)
      · exact Or.inr ⟨by simp, b, c⟩
    · rename_i q hfind
      have hqmem : q ∈ (fr_main_perform_printout_st st splice).printqs :=
        List.mem_of_find?_eq_some hfind
      have hqid : q.id = i := by
        have := List.find?_some hfind
        simpa using this
      have hqbranch : q.in_list = false
          ∧ q.id ∉ (fr_main_perform_printout_st st splice).fast_reload_printq_list := by
        rcases g1 q hqmem with ⟨_, b, c⟩ | ⟨a, _, _⟩
        · exact ⟨b, c⟩
        · rw [hth1, hqid] at a
          exact absurd rfl a
      have hothers : ∀ q2 ∈ (fr_main_perform_printout_st st splice).printqs,
          q2.id ≠ i →
          q2.in_list = true
          ∧ q2.id ∈ (fr_main_perform_printout_st st splice).fast_reload_printq_list := by
        intro q2 hq2 hne
        rcases g1 q2 hq2 with ⟨a, _, _⟩ | ⟨_, b, c⟩
        · rw [hth1] at a
          exact absurd (Option.some.inj (Option.some.inj a)).symm hne
        · exact ⟨b, c⟩
      by_cases hemp : fr_printq_empty q = true
      · rw [if_pos hemp]
        show PrintqInv ⟨none, (fr_main_perform_printout_st st splice).printqs.filter (fun q2 => !(decide (q2.id = i))), (fr_main_perform_printout_st st splice).fast_reload_printq_list⟩
        refine ⟨?_, ?_, ?_, g4⟩
        · intro q2 hq2
          have hq2m := List.mem_filter.mp hq2
          have hq2ne : q2.id ≠ i := by
            have := hq2m.2
            simpa using this
          obtain ⟨b, c⟩ := hothers q2 hq2m.1 hq2ne
          exact Or.inr ⟨by simp, b, c⟩
        · intro j hj
          obtain ⟨q2, hq2, hq2i, hq2in⟩ := g2 j hj
          have hq2ne : q2.id ≠ i := by
            intro he
            have heq : q2 = q :=
              List.inj_on_of_nodup_map g3 hq2 hqmem (by rw [he, hqid])
            rw [heq] at hq2in
            rw [hqbranch.1] at hq2in
            exact Bool.noConfusion hq2in
          refine ⟨q2, List.mem_filter.mpr ⟨hq2, by simpa using hq2ne⟩, hq2i, hq2in⟩
        · show (((fr_main_perform_printout_st st splice).printqs.filter
              (fun q2 => !(decide (q2.id = i)))).map (fun q2 => q2.id)).Nodup
          exact List.Nodup.sublist
            (List.Sublist.map (fun (q2 : FastReloadPrintq) => q2.id)
              (List.filter_sublist _)) g3
      · rw [if_neg hemp]
        have hany : ((fr_main_perform_printout_st st splice).printqs.any
            (fun q2 => decide (q2.id = i) && q2.in_list)) = false := by
          rw [List.any_eq_false]
          intro q2 hq2
          by_cases hne : q2.id = i
          · have heq : q2 = q :=
              List.inj_on_of_nodup_map g3 hq2 hqmem (by rw [hne, hqid])
            rw [heq, hqbranch.1]
            simp
          · simp [hne]
        rw [fr_printq_list_insert, hany]
        simp only [Bool.false_eq_true, if_false]
        show PrintqInv ⟨none, pq_update (fr_main_perform_printout_st st splice).printqs i (fun q3 => { q3 with in_list := true }), i :: (fr_main_perform_printout_st st splice).fast_reload_printq_list⟩
        refine ⟨?_, ?_, ?_, ?_⟩
        · intro q2 hq2
          obtain ⟨q3, hq3, hq3e⟩ := List.mem_map.mp hq2
          by_cases hc : q3.id = i
          · rw [if_pos hc] at hq3e
            refine Or.inr ⟨by simp, by rw [← hq3e], ?_⟩
            rw [← hq3e]
            show q3.id ∈ i :: _
            rw [hc]
            exact List.mem_cons_self _ _
          · rw [if_neg hc] at hq3e
            obtain ⟨b, c⟩ := hothers q3 hq3 hc
            refine Or.inr ⟨by simp, by rw [← hq3e]; exact b, ?_⟩
            rw [← hq3e]
            exact List.mem_cons_of_mem _ c
        · intro j hj
          rcases List.mem_cons.mp hj with rfl | hj2
          · refine ⟨{ q with in_list := true },
              List.mem_map.mpr ⟨q, hqmem, by rw [if_pos hqid]⟩, hqid, rfl⟩
          · obtain ⟨q3, hq3, hq3i, hq3in⟩ := g2 j hj2
            refine ⟨if q3.id = i then { q3 with in_list := true } else q3,
              List.mem_map.mpr ⟨q3, hq3, rfl⟩, ?_, ?_⟩
            · by_cases hc : q3.id = i
              · rw [if_pos hc]
                exact hq3i
              · rw [if_neg hc]
                exact hq3i
            · by_cases hc : q3.id = i
              · rw [if_pos hc]
              · rw [if_neg hc]
                exact hq3in
        · show ((pq_update (fr_main_perform_printout_st st splice).printqs i
              (fun q3 => { q3 with in_list := true })).map (fun q3 => q3.id)).Nodup
          rw [pq_update_ids (fr_main_perform_printout_st st splice).printqs i
            (fun q3 => { q3 with in_list := true }) (fun _ => rfl)]
          exact g3
        · show (i :: (fr_main_perform_printout_st st splice).fast_reload_printq_list).Nodup
          refine List.nodup_cons.mpr ⟨?_, g4⟩
          rw [← hqid]
          exact hqbranch.2

theorem fr_printq_remove_clear_thread_spec (st : FrDaemon) (i : Nat) :
    (fr_printq_remove_clear_thread st i).printqs = st.printqs
    ∧ (fr_printq_remove_clear_thread st i).fast_reload_printq_list
        = st.fast_reload_printq_list
    ∧ ∀ j, ((fr_printq_remove_clear_thread st i).fast_reload_thread = some (some j)
        ↔ (st.fast_reload_thread = some (some j) ∧ j ≠ i)) := by
  rw [fr_printq_remove_clear_thread]
  split
  · rename_i j hth
    by_cases hj : j = i
    · rw [if_pos hj]
      refine ⟨rfl, rfl, ?_⟩
      intro k
      constructor
      · intro hk
        exact Option.noConfusion (Option.some.inj hk)
      · rintro ⟨hk1, hk2⟩
        rw [hth] at hk1
        have : j = k := Option.some.inj (Option.some.inj hk1)
        rw [← this] at hk2
        exact absurd hj hk2
    · rw [if_neg hj]
      refine ⟨rfl, rfl, ?_⟩
      intro k
      rw [hth]
      constructor
      · intro hk
        have hjk : j = k := Option.some.inj (Option.some.inj hk)
        refine ⟨hk, ?_⟩
        rw [← hjk]
        exact hj
      · rintro ⟨hk1, _⟩
        exact hk1
  · rename_i hno
    refine ⟨rfl, rfl, ?_⟩
    intro k
    constructor
    · intro hk
      exact absurd hk (hno k)
    · rintro ⟨hk1, _⟩
      exact absurd hk1 (hno k)

theorem PrintqInv.remove (st : FrDaemon) (i : Nat) (h : PrintqInv st) :
    PrintqInv (fr_printq_remove st i) := by
  rw [fr_printq_remove]
  obtain ⟨hp, hl, hth⟩ := fr_printq_remove_clear_thread_spec st i
  by_cases hany : ((fr_printq_remove_clear_thread st i).printqs.any
      (fun q => decide (q.id = i) && q.in_list)) = true
  · rw [if_pos hany]
    show PrintqInv ⟨(fr_printq_remove_clear_thread st i).fast_reload_thread, (pq_update (fr_printq_remove_clear_thread st i).printqs i (fun q => { q with in_list := false })).filter (fun q => !(decide (q.id = i))), ((fr_printq_remove_clear_thread st i).fast_reload_printq_list).erase i⟩
    rw [hp, hl]
    obtain ⟨h1, h2, h3, h4⟩ := h
    refine ⟨?_, ?_, ?_, h4.erase i⟩
    · intro q2 hq2
      have hq2f := List.mem_filter.mp hq2
      have hq2ne : q2.id ≠ i := by
        simpa using hq2f.2
      obtain ⟨q3, hq3, hq3e⟩ := List.mem_map.mp hq2f.1
      have hc : ¬(q3.id = i) := by
        intro hc
        rw [if_pos hc] at hq3e
        apply hq2ne
        rw [← hq3e]
        exact hc
      rw [if_neg hc] at hq3e
      subst hq3e
      rcases h1 q3 hq3 with ⟨a, b, c⟩ | ⟨a, b, c⟩
      · refine Or.inl ⟨(hth q3.id).mpr ⟨a, hc⟩, b, ?_⟩
        intro hm
        exact c (List.mem_of_mem_erase hm)
      · refine Or.inr ⟨?_, b, (List.mem_erase_of_ne hc).mpr c⟩
        intro he
        exact a ((hth q3.id).mp he).1
    · intro j hj
      obtain ⟨h4a, h4b⟩ := h4.mem_erase_iff.mp hj
      obtain ⟨q3, hq3, hq3i, hq3in⟩ := h2 j h4b
      have hne : q3.id ≠ i := by
        rw [hq3i]
        exact h4a
      refine ⟨q3, ?_, hq3i, hq3in⟩
      apply List.mem_filter.mpr
      refine ⟨?_, by simpa using hne⟩
      apply List.mem_map.mpr
      exact ⟨q3, hq3, by rw [if_neg hne]⟩
    · refine List.Nodup.sublist
        (List.Sublist.map (fun (q : FastReloadPrintq) => q.id)
          (List.filter_sublist _)) ?_
      show ((pq_update st.printqs i
          (fun q => { q with in_list := false })).map (fun q => q.id)).Nodup
      rw [pq_update_ids st.printqs i
        (fun q => { q with in_list := false }) (fun _ => rfl)]
      exact h3
  · rw [if_neg hany]
    show PrintqInv ⟨(fr_printq_remove_clear_thread st i).fast_reload_thread, (fr_printq_remove_clear_thread st i).printqs.filter (fun q => !(decide (q.id = i))), (fr_printq_remove_clear_thread st i).fast_reload_printq_list⟩
    rw [hp, hl]
    rw [hp] at hany
    have hany2 : (st.printqs.any (fun q => decide (q.id = i) && q.in_list)) = false := by
      simpa using hany
    have hnin : ∀ q2 ∈ st.printqs, q2.id = i → q2.in_list = false := by
      intro q2 hq2 hq2i
      have := List.any_eq_false.mp hany2 q2 hq2
      simpa [hq2i] using this
    obtain ⟨h1, h2, h3, h4⟩ := h
    refine ⟨?_, ?_, ?_, h4⟩
    · intro q2 hq2
      have hq2f := List.mem_filter.mp hq2
      have hq2ne : q2.id ≠ i := by
        simpa using hq2f.2
      rcases h1 q2 hq2f.1 with ⟨a, b, c⟩ | ⟨a, b, c⟩
      · exact Or.inl ⟨(hth q2.id).mpr ⟨a, hq2ne⟩, b, c⟩
      · refine Or.inr ⟨?_, b, c⟩
        intro he
        exact a ((hth q2.id).mp he).1
    · intro j hj
      obtain ⟨q3, hq3, hq3i, hq3in⟩ := h2 j hj
      have hne : q3.id ≠ i := by
        intro he
        have := hnin q3 hq3 he
        rw [this] at hq3in
        exact Bool.noConfusion hq3in
      exact ⟨q3, List.mem_filter.mpr ⟨hq3, by simpa using hne⟩, hq3i, hq3in⟩
    · exact List.Nodup.sublist
        (List.Sublist.map (fun (q : FastReloadPrintq) => q.id)
          (List.filter_sublist _)) h3

/-- C3: at most one printq exists per fast-reload thread, and every live
printq either has a living thread backlink or is on the daemon's orphan
list with `in_list` set — an invariant of every reachable state, so it
holds after every operation that creates, removes, or transfers a
printq.  At teardown the thread's pointer is always cleared; a drained
printq is destroyed, while one with pending output is inserted into
`daemon.fast_reload_printq_list` with its `in_list` flag set. -/
theorem printq_ownership_invariant :
    (∀ st : FrDaemon, FrReach st → PrintqInv st)
    ∧ (∀ st : FrDaemon, FrReach st → ∀ q ∈ st.printqs, ∀ q2 ∈ st.printqs,
        st.fast_reload_thread = some (some q.id) →
        st.fast_reload_thread = some (some q2.id) → q = q2)
    ∧ (∀ (st : FrDaemon) (splice : List String),
        (fast_reload_thread_desetup st splice).fast_reload_thread = none)
    ∧ (∀ (st : FrDaemon) (splice : List String) (i : Nat) (q : FastReloadPrintq),
        PrintqInv st →
        st.fast_reload_thread = some (some i) →
        (fr_main_perform_printout_st st splice).printqs.find?
            (fun q2 => decide (q2.id = i)) = some q →
        (fr_printq_empty q = true →
          ∀ q2 ∈ (fast_reload_thread_desetup st splice).printqs, q2.id ≠ i)
        ∧ (fr_printq_empty q = false →
          i ∈ (fast_reload_thread_desetup st splice).fast_reload_printq_list
          ∧ ∃ q2 ∈ (fast_reload_thread_desetup st splice).printqs,
              q2.id = i ∧ q2.in_list = true)) := by
  have hreach : ∀ st : FrDaemon, FrReach st → PrintqInv st := by
    intro st h
    induction h with
    | init =>
      refine ⟨?_, ?_, by simp, by simp⟩
      · intro q hq
        cases hq
      · intro j hj
        cases hj
    | start st newId h hth hfresh ih => exact PrintqInv.start st newId hth hfresh ih
    | printout st splice h ih => exact PrintqInv.printout st splice ih
    | desetup st splice h ih => exact PrintqInv.desetup st splice ih
    | remove st i h ih => exact PrintqInv.remove st i ih
  refine ⟨hreach, ?_, ?_, ?_⟩
  · intro st h q hq q2 hq2 ha hb
    have h3 := (hreach st h).2.2.1
    apply List.inj_on_of_nodup_map h3 hq hq2
    have := ha.symm.trans hb
    exact Option.some.inj (Option.some.inj this)
  · intro st splice
    rw [fast_reload_thread_desetup]
    split
    · rename_i hth
      exact hth
    · rfl
    · split
      · rfl
      · rename_i q hfind
        by_cases hemp : fr_printq_empty q = true
        · rw [if_pos hemp]
        · rw [if_neg hemp]
  · intro st splice i q hinv hth hfind
    have hst1 : PrintqInv (fr_main_perform_printout_st st splice) :=
      PrintqInv.printout st splice hinv
    have hth1 : (fr_main_perform_printout_st st splice).fast_reload_thread
        = some (some i) := by
      rw [fr_main_perform_printout_st_thread, hth]
    obtain ⟨g1, g2, g3, g4⟩ := hst1
    have hqmem : q ∈ (fr_main_perform_printout_st st splice).printqs :=
      List.mem_of_find?_eq_some hfind
    have hqid : q.id = i := by
      have := List.find?_some hfind
      simpa using this
    have hdeq : fast_reload_thread_desetup st splice
        = (if fr_printq_empty q then { fr_printq_delete_st (fr_main_perform_printout_st st splice) i with fast_reload_thread := none } else { fr_printq_list_insert (fr_main_perform_printout_st st splice) i with fast_reload_thread := none }) := by
      rw [fast_reload_thread_desetup, hth]
      show (match (fr_main_perform_printout_st st splice).printqs.find? (fun q2 => decide (q2.id = i)) with | none => { fr_main_perform_printout_st st splice with fast_reload_thread := none } | some q2 => if fr_printq_empty q2 then { fr_printq_delete_st (fr_main_perform_printout_st st splice) i with fast_reload_thread := none } else { fr_printq_list_insert (fr_main_perform_printout_st st splice) i with fast_reload_thread := none }) = (if fr_printq_empty q then { fr_printq_delete_st (fr_main_perform_printout_st st splice) i with fast_reload_thread := none } else { fr_printq_list_insert (fr_main_perform_printout_st st splice) i with fast_reload_thread := none })
      rw [hfind]
    constructor
    · intro hemp
      rw [hdeq, if_pos hemp]
      intro q2 hq2
      have hq2f := List.mem_filter.mp hq2
      simpa using hq2f.2
    · intro hne
      have hemp : ¬(fr_printq_empty q = true) := by
        rw [hne]
        simp
      rw [hdeq, if_neg hemp]
      have hqbranch : q.in_list = false := by
        rcases g1 q hqmem with ⟨_, b, _⟩ | ⟨a, _, _⟩
        · exact b
        · rw [hth1, hqid] at a
          exact absurd rfl a
      have hany : ((fr_main_perform_printout_st st splice).printqs.any
          (fun q2 => decide (q2.id = i) && q2.in_list)) = false := by
        rw [List.any_eq_false]
        intro q2 hq2
        by_cases hc : q2.id = i
        · have heq : q2 = q :=
            List.inj_on_of_nodup_map g3 hq2 hqmem (by rw [hc, hqid])
          rw [heq, hqbranch]
          simp
        · simp [hc]
      rw [fr_printq_list_insert, hany]
      simp only [Bool.false_eq_true, if_false]
      constructor
      · show i ∈ i :: _
        exact List.mem_cons_self _ _
      · refine ⟨{ q with in_list := true },
          List.mem_map.mpr ⟨q, hqmem, by rw [if_pos hqid]⟩, hqid, rfl⟩

/-- Witness for `printq_ownership_invariant`: the started thread's state
satisfies the invariant, and tearing down a thread whose printq still
holds a pending line moves that printq onto the orphan list. -/
theorem printq_ownership_invariant_witness :
    PrintqInv (fast_reload_thread_start_pq ⟨none, [], []⟩ 1)
    ∧ 1 ∈ (fast_reload_thread_desetup
        ⟨some (some 1), [⟨1, ["ok"], none, false⟩], []⟩ []).fast_reload_printq_list := by
  constructor
  · refine printq_ownership_invariant.1 _
      (FrReach.start ⟨none, [], []⟩ 1 FrReach.init rfl ?_)
    intro q hq
    cases hq
  · have hinv : PrintqInv ⟨some (some 1), [⟨1, ["ok"], none, false⟩], []⟩ := by
      refine ⟨?_, ?_, by simp, by simp⟩
      · intro q hq
        rcases List.mem_cons.mp hq with rfl | h2
        · exact Or.inl ⟨rfl, rfl, by simp⟩
        · cases h2
      · intro j hj
        cases hj
    exact ((printq_ownership_invariant.2.2.2
      ⟨some (some 1), [⟨1, ["ok"], none, false⟩], []⟩ [] 1
      ⟨1, ["ok"], none, false⟩ hinv rfl (by decide)).2 (by decide)).1

end Unbound
